import Mathlib

/-!
Verification development for the node-mavlink codec (src/unnamed/part_000,
class `mavlink`): a shallow embedding of the schema compiler, the frame
builder (`createMessage`), the incremental frame parser (`parseChar` /
`parse`) and the payload decoder (`decodeMessage`), together with theorems
settling the specification claims.

Modelling conventions:
- Node `Buffer`s are `List Nat` of byte values (each < 256 where relevant).
- JavaScript numbers holding integers are `Int` / `Nat` with explicit
  masking (`% 2^w`) where the source writes fixed-width values.
- `float`/`double` field values are modelled by their IEEE-754 wire bit
  patterns (a `Nat` below `2^32` resp. `2^64`): `writeFloatLE` /
  `readFloatLE` are inverse byte codecs on these patterns, which is the
  byte-level behaviour of the source for representable values.
- Strings travelling through char fields are modelled as lists of
  character codes; `Buffer.toString` (UTF-8) is the identity on the ASCII
  code points the claims quantify over.
- Thrown exceptions are modelled by `Except`-style error results; the
  parser's step function returns an abort flag where an exception would
  propagate out of `parseChar`, and `parseBytes` (the `parse` loop) stops
  at the first abort, as an uncaught exception would stop the `for` loop.
-/

namespace NodeMavlink

set_option maxRecDepth 8000000

/-- One step of the X.25 CRC accumulator, from `mavlink.calculateChecksum`:
`tmp = b ^ (crc & 0xff); tmp = (tmp ^ (tmp << 4)) & 0xFF;
crc = (crc >> 8) ^ (tmp << 8) ^ (tmp << 3) ^ (tmp >> 4); crc &= 0xFFFF`. -/
def crcStep (checksum b : Nat) : Nat :=
  let tmp := Nat.xor b (checksum % 256)
  let tmp2 := Nat.xor tmp (tmp <<< 4) % 256
  Nat.xor (Nat.xor (Nat.xor (checksum / 256) (tmp2 <<< 8)) (tmp2 <<< 3)) (tmp2 / 16) % 65536

/-- `mavlink.calculateChecksum`: X.25 CRC over a byte buffer, seed 0xFFFF. -/
def calculateChecksum (buffer : List Nat) : Nat :=
  buffer.foldl crcStep 0xFFFF

/-- Little-endian byte encoding of a natural number into `size` bytes. -/
def leBytes : Nat → Nat → List Nat
  | _, 0 => []
  | v, n + 1 => v % 256 :: leBytes (v / 256) n

/-- Little-endian byte decoding (value of `bs` read as a base-256 numeral,
least significant byte first), as Node's `readUIntLE` family does. -/
def fromLE (bs : List Nat) : Nat :=
  bs.foldr (fun b acc => b + 256 * acc) 0

/-- UTF-8 encoding of one character (code points below 0x10000 suffice for
every string the source CRCs; `new Buffer(string)` encodes UTF-8). -/
def utf8Char (n : Nat) : List Nat :=
  if n < 128 then [n]
  else if n < 2048 then [192 + n / 64, 128 + n % 64]
  else [224 + n / 4096, 128 + n / 64 % 64, 128 + n % 64]

/-- Bytes of a Lean string under UTF-8, modelling `new Buffer(s)`. -/
def strBytes (s : String) : List Nat :=
  (s.toList.map (fun c => utf8Char c.toNat)).flatten

/-- The `typeLengths` table from `mavlink.fieldTypeLength`. -/
def typeLengths (t : String) : Option Nat :=
  if t = "float" then some 4
  else if t = "double" then some 8
  else if t = "char" then some 1
  else if t = "int8_t" then some 1
  else if t = "uint8_t" then some 1
  else if t = "uint8_t_mavlink_version" then some 1
  else if t = "int16_t" then some 2
  else if t = "uint16_t" then some 2
  else if t = "int32_t" then some 4
  else if t = "uint32_t" then some 4
  else if t = "int64_t" then some 8
  else if t = "uint64_t" then some 8
  else none

/-- JS `String.replace(pat, rep)` with one-character pattern and
replacement: substitute the first occurrence only. -/
def replaceFirstChar (a b : Char) : List Char → List Char
  | [] => []
  | c :: rest => if c = a then b :: rest else c :: replaceFirstChar a b rest

/-- JS `String.split(" ")`: cut at every space, keeping empty pieces. -/
def splitOnSpaceAux : List Char → List Char → List String
  | acc, [] => [String.mk acc.reverse]
  | acc, c :: rest =>
    if c = ' ' then String.mk acc.reverse :: splitOnSpaceAux [] rest
    else splitOnSpaceAux (c :: acc) rest

/-- The source's recurring idiom
`type.replace("[", " ").replace("]", " ").split(" ")`. -/
def splitType (t : String) : List String :=
  splitOnSpaceAux [] (replaceFirstChar ']' ' ' (replaceFirstChar '[' ' ' t.toList))

/-- Decimal value of a digit string, accumulator style. -/
def digitsToNat : List Char → Nat → Nat
  | [], acc => acc
  | c :: rest, acc => digitsToNat rest (acc * 10 + (c.toNat - 48))

/-- JS `parseInt` restricted to the decimal digit strings that occur in
well-formed type tokens. -/
def parseIntNat (s : String) : Nat :=
  digitsToNat s.toList 0

/-- `mavlink.fieldTypeLength`: size of one element of the field's type.
An unknown token gives JS `undefined`; modelled as 0, unreachable under
the well-formedness hypotheses of the theorems below. -/
def fieldTypeLength (t : String) : Nat :=
  (typeLengths ((splitType t).headD "")).getD 0

/-- `mavlink.fieldLength`: total size of a field, the element size
multiplied by every nonempty bracket component. -/
def fieldLength (t : String) : Nat :=
  ((splitType t).drop 1).foldl
    (fun acc part => if part ≠ "" then acc * parseIntNat part else acc)
    (fieldTypeLength t)

/-- A schema field as handed to the compiler: the `type` and `name`
attributes. -/
structure RawField where
  typ : String
  name : String
deriving DecidableEq, Repr

/-- A processed field (`IProcessedMavlinkField`): type string after alias
normalization, plus the lengths and the original schema position that
`orderFields` computes. -/
structure PField where
  typ : String
  name : String
  initialPos : Nat
  typeLength : Nat
  arrayLength : Nat
  length : Nat
deriving DecidableEq, Repr

/-- The alias rewriting done at the top of `orderFields`:
`uint8_t_mavlink_version` becomes `uint8_t` and `array` becomes `int8_t`. -/
def normalizeType (t : String) : String :=
  if t = "uint8_t_mavlink_version" then "uint8_t"
  else if t = "array" then "int8_t" else t

/-- Processing of one field in `orderFields`: record the schema position,
normalize the type, compute `length`, `typeLength` and
`arrayLength = length / typeLength`. -/
def processField (i : Nat) (f : RawField) : PField :=
  let t := normalizeType f.typ
  let len := fieldLength t
  let tl := fieldTypeLength t
  { typ := t, name := f.name, initialPos := i,
    typeLength := tl, arrayLength := len / tl, length := len }

/-- All fields of a message processed in schema order. -/
def processedFields (fs : List RawField) : List PField :=
  fs.enum.map (fun p => processField p.1 p.2)

/-- The sort comparator of `orderFields` expressed as a `le` test:
`a` may precede `b` iff the JS comparator returns a non-positive number,
i.e. wider elements first, schema position as tie-breaker. -/
def fieldLe (a b : PField) : Bool :=
  if a.typeLength = b.typeLength then a.initialPos ≤ b.initialPos
  else b.typeLength < a.typeLength

/-- The comparator as a relation, for the sort and its ordering facts. -/
def LayoutRel (a b : PField) : Prop :=
  fieldLe a b = true

instance : DecidableRel LayoutRel :=
  fun a b => inferInstanceAs (Decidable (fieldLe a b = true))

/-- The field list in wire-layout order: `message.field.sort(comparator)`.
The JS sort with this comparator (a total preorder whose ties are broken
by the distinct `initialPos` values) is a stable sort; `insertionSort`
computes exactly that stable sort. -/
def orderFields (fs : List RawField) : List PField :=
  (processedFields fs).insertionSort LayoutRel

/-- The payload length accumulated by `orderFields`
(`message.payloadLength += field[i].length`). -/
def payloadLengthOf (fs : List RawField) : Nat :=
  ((processedFields fs).map (fun f => f.length)).sum

/-- Base type token of a processed field (`fieldSplit[0]`). -/
def baseOf (f : PField) : String :=
  (splitType f.typ).headD ""

/-- Whether a processed field is an array (`fieldSplit.length > 1`). -/
def isArrF (f : PField) : Bool :=
  1 < (splitType f.typ).length

/-- Signature contribution of one field in `calculateMessageChecksum`:
`type[0] + " " + name + " "`, then `String.fromCharCode(parseInt(type[1]))`
when the bracket component exists. -/
def fieldSigBytes (f : PField) : List Nat :=
  strBytes ((splitType f.typ).headD "") ++ [32] ++ strBytes f.name ++ [32] ++
    (match (splitType f.typ).drop 1 with
     | [] => []
     | s :: _ => utf8Char (parseIntNat s))

/-- Bytes of the checksum signature string built by
`calculateMessageChecksum`: `name + " "` followed by each field's
contribution, fields in layout order. -/
def checksumStringBytes (name : String) (fs : List PField) : List Nat :=
  strBytes name ++ [32] ++ (fs.map fieldSigBytes).flatten

/-- A schema message as handed to the compiler: `id` and `name`
attributes and the field list in schema order. -/
structure RawMsg where
  id : Nat
  name : String
  field : List RawField
deriving DecidableEq, Repr

/-- A compiled message descriptor: layout-ordered fields, payload length
and the per-message CRC seed. -/
structure PMsg where
  id : Nat
  name : String
  field : List PField
  payloadLength : Nat
  seed : Nat
deriving DecidableEq, Repr

/-- `mavlink.calculateMessageChecksum`: order the fields, CRC the
signature string, fold the 16-bit CRC into one byte. -/
def calculateMessageChecksum (m : RawMsg) : Nat :=
  let crc := calculateChecksum (checksumStringBytes m.name (orderFields m.field))
  Nat.xor (crc % 256) (crc / 256)

/-- Compilation of one message by `addMessages` (v1.0): `orderFields`
annotates the descriptor and the message checksum is stored. -/
def compileMessage (m : RawMsg) : PMsg :=
  { id := m.id, name := m.name, field := orderFields m.field,
    payloadLength := payloadLengthOf m.field,
    seed := calculateMessageChecksum m }

/-- The catalog produced by loading a list of schema messages. -/
def buildCatalog (ms : List RawMsg) : List PMsg :=
  ms.map compileMessage

/-- Lookup by numeric id (`messagesByID`); `Int`-typed so that the `-1`
returned by a failed name lookup misses every entry. -/
def byID (cat : List PMsg) (id : Int) : Option PMsg :=
  cat.find? (fun m => (m.id : Int) = id)

/-- Lookup by name (`messagesByName`). -/
def byName (cat : List PMsg) (n : String) : Option PMsg :=
  cat.find? (fun m => m.name = n)

/-- `mavlink.getMessageID`: id for a name, `-1` when absent. -/
def getMessageID (cat : List PMsg) (n : String) : Int :=
  match byName cat n with
  | some m => (m.id : Int)
  | none => -1

/-- `mavlink.getMessageName`: name for an id, `""` when absent. -/
def getMessageName (cat : List PMsg) (id : Nat) : String :=
  match byID cat (id : Int) with
  | some m => m.name
  | none => ""

/-- The stored `messageChecksums[id]`; an absent id gives JS `undefined`,
which a `Buffer` element store coerces to the byte 0. -/
def seedOf (cat : List PMsg) (id : Nat) : Nat :=
  match byID cat (id : Int) with
  | some m => m.seed
  | none => 0

/-- A JS value supplied to or decoded from a message field: a number (for
`float`/`double`, its IEEE bit pattern), an array of numbers, or a string
given as its list of character codes. -/
inductive MavValue where
  | n : Int → MavValue
  | arrN : List Int → MavValue
  | s : List Nat → MavValue
deriving DecidableEq, Repr

/-- The numeric content of a value (`Number(v)`); a non-number gives JS
`NaN`, unreachable under the validity hypotheses of the theorems. -/
def numOf : MavValue → Int
  | .n v => v
  | _ => 0

/-- `charCodeAt(0)` of a one-character string element. -/
def charCode : MavValue → Nat
  | .s (c :: _) => c
  | _ => 0

/-- Two's-complement little-endian write of a JS integer into `size`
bytes, the behaviour of Node's `write*IntLE`/`writeInt8` family. -/
def intLE (v : Int) (size : Nat) : List Nat :=
  leBytes (v.emod ((2 : Int) ^ (8 * size))).toNat size

/-- Bytes written for one element by the `switch` of `mavlink.bufferField`.
`float`/`double` write the value's bit pattern (see the header comment);
`int64_t`/`uint64_t` write nothing (`console.warn`, no buffer write).  An
unrecognized token throws in the source; all theorems below assume
supported tokens. -/
def encodeElem (base : String) (e : MavValue) : List Nat :=
  if base = "float" then leBytes (numOf e).toNat 4
  else if base = "double" then leBytes (numOf e).toNat 8
  else if base = "char" then [charCode e]
  else if base = "int8_t" ∨ base = "uint8_t" ∨ base = "uint8_t_mavlink_version" then intLE (numOf e) 1
  else if base = "int16_t" ∨ base = "uint16_t" then intLE (numOf e) 2
  else if base = "int32_t" ∨ base = "uint32_t" then intLE (numOf e) 4
  else []

/-- The element sequence `valueArr` of `mavlink.bufferField`: a scalar
field wraps the value in a one-element array; an array field iterates the
supplied array or the characters of the supplied string (a number supplied
for an array field has no `length`, so the loop writes nothing). -/
def fieldElems (f : PField) (v : MavValue) : List MavValue :=
  if (splitType f.typ).length = 1 then [v]
  else
    match v with
    | .arrN vs => vs.map MavValue.n
    | .s cs => cs.map (fun c => MavValue.s [c])
    | .n _ => []

/-- The bytes a field contributes to the payload: `bufferField` writes the
encoded elements at consecutive offsets into the zero-filled payload
buffer, and the outer loop advances by `field.length`, so the field's
slice is the encoding followed by the remaining zero fill. -/
def bufferFieldBytes (f : PField) (v : MavValue) : List Nat :=
  let written := ((fieldElems f v).map (encodeElem ((splitType f.typ).headD ""))).flatten
  written ++ List.replicate (f.length - written.length) 0

/-- The codec state (`mavlink` object): origin ids, the outgoing sequence
counter, the receive buffer with its write index and expected length, the
last accepted sequence byte, and the compiled catalog.  Version is fixed
to v1.0 (start byte 0xFE), the version every claim concerns. -/
structure Mav where
  sysid : Nat
  compid : Nat
  sequence : Nat
  buffer : List Nat
  bufferIndex : Nat
  messageLength : Nat
  lastCounter : Nat
  catalog : List PMsg
deriving DecidableEq, Repr

/-- The constructor: ids as given (`sysid || 0`), fresh 512-byte receive
buffer, counters at zero, catalog as loaded. -/
def mavlinkInit (sysid compid : Nat) (cat : List PMsg) : Mav :=
  { sysid := sysid, compid := compid, sequence := 0,
    buffer := List.replicate 512 0, bufferIndex := 0, messageLength := 0,
    lastCounter := 0, catalog := cat }

/-- The `mavlinkMessage` container built from a frame buffer: header
fields read from fixed offsets, the payload slice, the little-endian
checksum trailer, and the whole frame. -/
structure IMessage where
  length : Nat
  sequence : Nat
  system : Nat
  component : Nat
  id : Nat
  payload : List Nat
  checksum : Nat
  buffer : List Nat
deriving DecidableEq, Repr

/-- The `mavlinkMessage` constructor on a buffer. -/
def mkMessage (buf : List Nat) : IMessage :=
  let len := buf.getD 1 0
  { length := len, sequence := buf.getD 2 0, system := buf.getD 3 0,
    component := buf.getD 4 0, id := buf.getD 5 0,
    payload := (buf.drop 6).take len,
    checksum := fromLE ((buf.drop (len + 6)).take 2),
    buffer := buf.take (len + 8) }

/-- How `createMessage` is addressed: a numeric id or a message name. -/
inductive MsgRef where
  | byNum : Nat → MsgRef
  | byStr : String → MsgRef

/-- The id `createMessage` resolves from its first argument: a number is
used as is, a name goes through `getMessageID` (`-1` when unknown). -/
def refId (cat : List PMsg) : MsgRef → Int
  | .byNum n => (n : Int)
  | .byStr s => getMessageID cat s

/-- `mavlink.createMessage`.  Note the source's behaviour, modelled
exactly: when both origin ids are zero it only logs and continues; an
unknown message or a missing field logs and returns with no callback and
no state change; otherwise the payload is assembled field by field, the
sequence counter advances (post-increment with wrap: the byte written is
the new counter value), the header and X.25 checksum (over
`buffer[1..6+len)` plus the seed byte) are attached, and the callback
receives the message, here the `some` result. -/
def createMessage (st : Mav) (msgid : MsgRef) (data : List (String × MavValue)) :
    Mav × Option IMessage :=
  match byID st.catalog (refId st.catalog msgid) with
  | none => (st, none)
  | some m =>
    if m.field.all (fun f => (data.lookup f.name).isSome) then
      let payload := (m.field.map
        (fun f => bufferFieldBytes f ((data.lookup f.name).getD (.n 0)))).flatten
      let seq := if st.sequence = 255 then 0 else st.sequence + 1
      let core := [m.payloadLength % 256, seq % 256, st.sysid % 256, st.compid % 256,
        m.id % 256] ++ payload
      let crc := calculateChecksum (core ++ [seedOf st.catalog m.id])
      let frame := 0xFE :: core ++ leBytes crc 2
      ({st with sequence := seq}, some (mkMessage frame))
    else (st, none)

/-- A decoding failure: the thrown `TypeError` on an id absent from the
catalog, the thrown `Error` on an unimplemented type token, or the
`RangeError` of a Node read past the end of the payload. -/
inductive DecodeError where
  | unknownId
  | badType (t : String)
  | range
deriving DecidableEq, Repr

/-- Unsigned little-endian read of `n` bytes at `off`, erroring past the
end of the buffer as Node's checked reads do. -/
def readU (payload : List Nat) (off n : Nat) : Except DecodeError Nat :=
  if off + n ≤ payload.length then .ok (fromLE ((payload.drop off).take n))
  else .error .range

/-- Two's-complement reinterpretation of an unsigned `bits`-wide value. -/
def toSigned (v : Nat) (bits : Nat) : Int :=
  if v < 2 ^ (bits - 1) then (v : Int) else (v : Int) - 2 ^ bits

/-- JS `ToInt32`, applied by the `<<` in the source's broken `uint64_t`
decode path (`x << 32` shifts by `32 & 31 = 0` after `ToInt32`). -/
def toInt32 (v : Nat) : Int :=
  if v % 2 ^ 32 < 2 ^ 31 then (v % 2 ^ 32 : Nat) else ((v % 2 ^ 32 : Nat) : Int) - 2 ^ 32

/-- One element read by the `switch` of `mavlink.decodeMessage`:
`float`/`double` yield the bit pattern (see the header comment);
`int64_t` only warns and leaves `val = 0`; `uint64_t` computes
`(readUInt32LE(off) << 32) + readUInt32LE(off+4)`, where the shift is a
no-op on the 32-bit operand. -/
def readVal (base : String) (payload : List Nat) (off : Nat) : Except DecodeError Int :=
  if base = "float" then (readU payload off 4).map (fun x => (x : Int))
  else if base = "double" then (readU payload off 8).map (fun x => (x : Int))
  else if base = "char" ∨ base = "uint8_t" ∨ base = "uint8_t_mavlink_version" then
    (readU payload off 1).map (fun x => (x : Int))
  else if base = "int8_t" then (readU payload off 1).map (fun x => toSigned x 8)
  else if base = "int16_t" then (readU payload off 2).map (fun x => toSigned x 16)
  else if base = "uint16_t" then (readU payload off 2).map (fun x => (x : Int))
  else if base = "int32_t" then (readU payload off 4).map (fun x => toSigned x 32)
  else if base = "uint32_t" then (readU payload off 4).map (fun x => (x : Int))
  else if base = "int64_t" then .ok 0
  else if base = "uint64_t" then do
    let v1 ← readU payload off 4
    let v2 ← readU payload (off + 4) 4
    .ok (toInt32 v1 + v2)
  else .error (.badType base)

/-- The last index the source's backwards scan in `mavlink.trim_buffer`
stops at: the last nonzero position, or 0 when every byte is zero. -/
def lastNonzeroPos (bs : List Nat) : Nat :=
  match bs.reverse.findIdx? (fun b => b ≠ 0) with
  | some k => bs.length - 1 - k
  | none => 0

/-- `mavlink.trim_buffer`: `buffer.slice(0, pos + 1)`. -/
def trim_buffer (bs : List Nat) : List Nat :=
  bs.take (lastNonzeroPos bs + 1)

/-- The per-field loop of `mavlink.decodeMessage` over the layout-ordered
field list, with the running payload offset.  A scalar keeps the last
element read; an array collects the elements; a char array is passed
through `trim_buffer` and returned as a string (its byte codes). -/
def decodeFields (payload : List Nat) (off : Nat) :
    List PField → Except DecodeError (List (String × MavValue))
  | [] => .ok []
  | f :: rest => do
    let vals ← (List.range f.arrayLength).mapM
      (fun j => readVal (baseOf f) payload (off + j * f.typeLength))
    let v : MavValue :=
      if isArrF f then
        if baseOf f = "char" then .s (trim_buffer (vals.map Int.toNat))
        else .arrN vals
      else .n (vals.getLastD 0)
    let restVals ← decodeFields payload (off + f.arrayLength * f.typeLength) rest
    .ok ((f.name, v) :: restVals)

/-- `mavlink.decodeMessage`: look the id up (an absent id makes the source
dereference `undefined` and throw) and decode the payload field by field. -/
def decodeMessage (cat : List PMsg) (msg : IMessage) :
    Except DecodeError (List (String × MavValue)) :=
  match byID cat (msg.id : Int) with
  | none => .error .unknownId
  | some m => decodeFields msg.payload 0 m.field

/-- The lookup of one decoded field, for stating concrete decode facts. -/
def decodedLookup (cat : List PMsg) (msg : IMessage) (nm : String) : Option MavValue :=
  match decodeMessage cat msg with
  | .ok flds => flds.lookup nm
  | .error _ => none

/-- Whether an `Except` result is an error, modelling a thrown exception. -/
def isError {α : Type} : Except DecodeError α → Bool
  | .error _ => true
  | .ok _ => false

/-- An observable emission of the parser: the two diagnostic events and
the generic and per-name message deliveries. -/
inductive Event where
  | sequenceError (gap : Int)
  | checksumFail (id seed computed received : Nat)
  | message (name : String) (msg : IMessage) (fields : List (String × MavValue))
  | named (name : String) (msg : IMessage) (fields : List (String × MavValue))
deriving DecidableEq, Repr

/-- The checksummable buffer the parser assembles in its v1.0 branch:
`buffer[1 .. L+6)` (five header bytes and the payload) with the stored
seed for the id byte `buffer[5]` appended (0 when the id is unknown). -/
def crcBufOf (s : Mav) : List Nat :=
  (s.buffer.drop 1).take (s.messageLength + 5) ++ [seedOf s.catalog (s.buffer.getD 5 0)]

/-- The received checksum trailer, read little-endian at `L + 6`. -/
def receivedOf (s : Mav) : Nat :=
  fromLE ((s.buffer.drop (s.messageLength + 6)).take 2)

/-- The origin filter: deliver when both configured ids are zero
(promiscuous) or the frame's sysid and compid both match. -/
def originGate (s : Mav) (msg : IMessage) : Prop :=
  (s.sysid = 0 ∧ s.compid = 0) ∨ (msg.system = s.sysid ∧ msg.component = s.compid)

instance (s : Mav) (msg : IMessage) : Decidable (originGate s msg) :=
  inferInstanceAs (Decidable (_ ∨ _))

/-- The sequence-gap diagnostic of a checksum-valid frame: emitted when
the sequence byte is nonzero and does not follow `lastCounter` by one;
its payload is the plain JS difference `buffer[2] - lastCounter - 1`. -/
def seqEvents (s : Mav) : List Event :=
  if 0 < s.buffer.getD 2 0 ∧ (s.buffer.getD 2 0 : Int) - (s.lastCounter : Int) ≠ 1
  then [Event.sequenceError ((s.buffer.getD 2 0 : Int) - (s.lastCounter : Int) - 1)]
  else []

/-- The validation-and-dispatch block entered when
`bufferIndex === messageLength + 8` (v1.0 path): build the checksummable
buffer `buffer[1..L+6)` plus the seed byte, compare with the little-endian
trailer; on success emit a `sequenceError` when the sequence byte is
nonzero and does not follow the last one, update `lastCounter`, and when
the origin matches (or both configured ids are zero) decode and emit the
two message events.  A decode throw aborts before the two emits and
before the buffer reset, leaving `bufferIndex` at `messageLength + 8`:
the third component reports the abort. -/
def checkFrame (s : Mav) : Mav × List Event × Bool :=
  if calculateChecksum (crcBufOf s) = receivedOf s then
    if originGate s (mkMessage s.buffer) then
      match decodeMessage s.catalog (mkMessage s.buffer) with
      | .error _ => ({s with lastCounter := s.buffer.getD 2 0}, seqEvents s, true)
      | .ok flds =>
        ({s with lastCounter := s.buffer.getD 2 0, bufferIndex := 0, messageLength := 0},
         seqEvents s ++
           [Event.message (getMessageName s.catalog (s.buffer.getD 5 0)) (mkMessage s.buffer) flds,
            Event.named (getMessageName s.catalog (s.buffer.getD 5 0)) (mkMessage s.buffer) flds],
         false)
    else
      ({s with lastCounter := s.buffer.getD 2 0, bufferIndex := 0, messageLength := 0},
       seqEvents s, false)
  else
    ({s with bufferIndex := 0, messageLength := 0},
     [Event.checksumFail (s.buffer.getD 5 0) (seedOf s.catalog (s.buffer.getD 5 0))
        (calculateChecksum (crcBufOf s)) (receivedOf s)], false)

/-- `mavlink.parseChar`: accept the 0xFE start byte at index 0, record the
length byte at index 1, accumulate body bytes, and run `checkFrame` when
the frame is complete. -/
def parseChar (st : Mav) (ch : Nat) : Mav × List Event × Bool :=
  if st.bufferIndex = 0 ∧ ch = 0xFE then
    ({st with buffer := st.buffer.set 0 ch, bufferIndex := 1}, [], false)
  else if st.bufferIndex = 1 then
    ({st with buffer := st.buffer.set 1 ch, messageLength := ch, bufferIndex := 2}, [], false)
  else if 1 < st.bufferIndex ∧ st.bufferIndex < st.messageLength + 8 then
    (if st.bufferIndex + 1 = st.messageLength + 8 then
      checkFrame {st with buffer := st.buffer.set st.bufferIndex ch, bufferIndex := st.bufferIndex + 1}
     else
      ({st with buffer := st.buffer.set st.bufferIndex ch, bufferIndex := st.bufferIndex + 1}, [], false))
  else
    (if st.bufferIndex = st.messageLength + 8 then checkFrame st else (st, [], false))

/-- `mavlink.parse`: `parseChar` on each byte in order.  An abort (an
exception escaping `parseChar`) stops the loop, as the uncaught exception
would. -/
def parseBytes (st : Mav) : List Nat → Mav × List Event × Bool
  | [] => (st, [], false)
  | ch :: rest =>
    let r := parseChar st ch
    if r.2.2 then r
    else
      let r2 := parseBytes r.1 rest
      (r2.1, r.2.1 ++ r2.2.1, r2.2.2)

/-- Modelled from the spec: the schema XML documents (the
`message_definitions` files the loader reads) are not part of the source
tree, so the catalog contents are taken from the spec's concrete
scenarios.  `ATTITUDE` is spec scenario 1: id 30 (`0x1E`), a
`uint32_t time_boot_ms` and six `float` fields, payload 28 bytes, and its
seed validates the built frame. -/
def rawATTITUDE : RawMsg :=
  { id := 30, name := "ATTITUDE",
    field := [⟨"uint32_t", "time_boot_ms"⟩, ⟨"float", "roll"⟩, ⟨"float", "pitch"⟩,
              ⟨"float", "yaw"⟩, ⟨"float", "rollspeed"⟩, ⟨"float", "pitchspeed"⟩,
              ⟨"float", "yawspeed"⟩] }

/-- Modelled from the spec: `PARAM_VALUE` is spec scenario 2, with the
`param_id` field explicitly `char[16]`; the remaining fields follow the
value kinds of the scenario (`param_value` a float, `param_type` a byte,
`param_count` and `param_index` 16-bit counters). -/
def rawPARAM_VALUE : RawMsg :=
  { id := 22, name := "PARAM_VALUE",
    field := [⟨"char[16]", "param_id"⟩, ⟨"float", "param_value"⟩, ⟨"uint8_t", "param_type"⟩,
              ⟨"uint16_t", "param_count"⟩, ⟨"uint16_t", "param_index"⟩] }

/-- Modelled from the spec: a minimal descriptor exercising the 64-bit
path of spec section 9 (a `uint64_t` timestamp beside a 32-bit field). -/
def rawSYSTEM_TIME : RawMsg :=
  { id := 2, name := "SYSTEM_TIME",
    field := [⟨"uint64_t", "time_unix_usec"⟩, ⟨"uint32_t", "time_boot_ms"⟩] }

/-- The compiled catalog used by the concrete scenarios. -/
def specCatalog : List PMsg :=
  buildCatalog [rawATTITUDE, rawPARAM_VALUE, rawSYSTEM_TIME]

/-- Spec scenario 1's field map for `ATTITUDE`; the six float values are
the IEEE-754 binary32 bit patterns of 0.1 through 0.6. -/
def attitudeData : List (String × MavValue) :=
  [("time_boot_ms", .n 30), ("roll", .n 0x3DCCCCCD), ("pitch", .n 0x3E4CCCCD),
   ("yaw", .n 0x3E99999A), ("rollspeed", .n 0x3ECCCCCD), ("pitchspeed", .n 0x3F000000),
   ("yawspeed", .n 0x3F19999A)]

/-- A `PARAM_VALUE` field map whose `param_id` is the empty string: a
valid map (a char string no longer than the 16-byte capacity) whose
char-array bytes are all zero. -/
def paramEmptyData : List (String × MavValue) :=
  [("param_id", .s []), ("param_value", .n 0x40490FD0), ("param_type", .n 5),
   ("param_count", .n 100), ("param_index", .n 55)]

/-- A `SYSTEM_TIME` field map for the 64-bit build path. -/
def systemTimeData : List (String × MavValue) :=
  [("time_unix_usec", .n 1234567), ("time_boot_ms", .n 42)]

/-- A well-formed `ATTITUDE` frame with a chosen sequence byte, zero
payload and a checksum valid for the catalog seed, origin (1, 1). -/
def attFrameSeq (s : Nat) : List Nat :=
  let core := [28, s, 1, 1, 30] ++ List.replicate 28 0
  0xFE :: core ++ leBytes (calculateChecksum (core ++ [seedOf specCatalog 30])) 2

/-- A zero-payload frame whose id 99 is absent from the catalog and whose
trailer equals the X.25 CRC computed with the seed byte 0 that the parser
substitutes for the missing `messageChecksums` entry: it passes the
checksum test and reaches `decodeMessage`. -/
def unknownIdFrame : List Nat :=
  let core := [0, 1, 1, 1, 99]
  0xFE :: core ++ leBytes (calculateChecksum (core ++ [0])) 2

/-! ### Helper notions used by several claims -/

/-- The spec's trailing-zero trim of a char string: drop trailing zeros. -/
def specTrim (cs : List Nat) : List Nat :=
  (cs.reverse.dropWhile (fun b => b = 0)).reverse

/-- The normalization the round-trip claim applies to a supplied field
value: char-array strings are trimmed of trailing zeros, everything else
is unchanged. -/
def normalizeValue (f : PField) (v : MavValue) : MavValue :=
  if isArrF f ∧ baseOf f = "char" then
    match v with
    | .s cs => .s (specTrim cs)
    | x => x
  else v

/-- The sequence-error gaps among a list of events. -/
def seqGaps (evs : List Event) : List Int :=
  evs.filterMap (fun e => match e with
    | .sequenceError g => some g
    | _ => none)

/-- `createMessage` invoked `n` times with the same arguments, collecting
the delivered messages. -/
def buildRepeat (st : Mav) (msgid : MsgRef) (data : List (String × MavValue)) :
    Nat → List IMessage
  | 0 => []
  | n + 1 =>
    match createMessage st msgid data with
    | (st1, some m) => m :: buildRepeat st1 msgid data n
    | (st1, none) => buildRepeat st1 msgid data n

/-- The parser state after the first seven bytes of the unknown-id frame,
one byte short of completion. -/
def c4WitState : Mav :=
  (parseBytes (mavlinkInit 0 0 specCatalog) (unknownIdFrame.take 7)).1

/-- The parser state one byte short of completing the second frame of the
5-then-3 sequence scenario. -/
def c6WitState : Mav :=
  (parseBytes (mavlinkInit 1 1 specCatalog) (attFrameSeq 5 ++ (attFrameSeq 3).take 35)).1

/-- The final byte of that second frame. -/
def c6WitChar : Nat :=
  (attFrameSeq 3).getD 35 0

/-- The state with that final byte stored, entering frame validation. -/
def c6WitStored : Mav :=
  { c6WitState with
    buffer := c6WitState.buffer.set c6WitState.bufferIndex c6WitChar,
    bufferIndex := c6WitState.bufferIndex + 1 }

/-- The canonical signature of spec section 4.2, written from the spec's
words as a refinement reference: the message name, then for each field in
layout order its base type token and its field name, with single spaces
as separators, and for each array field the single character whose code
point equals the array length appended.  `C3_crc_seed` compares the seed
the source stores against this. -/
def specSignature (name : String) (fs : List PField) : List Nat :=
  strBytes name ++ [32] ++
  (fs.map (fun f => strBytes (baseOf f) ++ [32] ++ strBytes f.name ++ [32] ++
     (if isArrF f then utf8Char f.arrayLength else []))).flatten

/-- Whether a JS number is in range for one element of the given base
type: for `float`/`double` the value is the IEEE bit pattern (see the
header comment); for integers the type's two's-complement range. -/
def inRangeB (b : String) (x : Int) : Bool :=
  if b = "float" then decide (0 ≤ x ∧ x < 2 ^ 32)
  else if b = "double" then decide (0 ≤ x ∧ x < 2 ^ 64)
  else if b = "int8_t" then decide (-(2 ^ 7) ≤ x ∧ x < 2 ^ 7)
  else if b = "uint8_t" ∨ b = "uint8_t_mavlink_version" then decide (0 ≤ x ∧ x < 2 ^ 8)
  else if b = "int16_t" then decide (-(2 ^ 15) ≤ x ∧ x < 2 ^ 15)
  else if b = "uint16_t" then decide (0 ≤ x ∧ x < 2 ^ 16)
  else if b = "int32_t" then decide (-(2 ^ 31) ≤ x ∧ x < 2 ^ 31)
  else if b = "uint32_t" then decide (0 ≤ x ∧ x < 2 ^ 32)
  else false

/-- A valid supplied value for a field, in the sense of the round-trip
claim: one in-range number per scalar field, arrays of exactly
`arrayLength` in-range numbers, char strings of ASCII codes no longer
than the declared array length — strengthened, as the amendment requires,
by at least one nonzero character. -/
def validValue (f : PField) (v : MavValue) : Bool :=
  if isArrF f then
    if baseOf f = "char" then
      match v with
      | .s cs => decide (cs.length ≤ f.arrayLength)
          && cs.all (fun c => decide (c < 128)) && cs.any (fun c => decide (c ≠ 0))
      | _ => false
    else
      match v with
      | .arrN xs => decide (xs.length = f.arrayLength) && xs.all (fun x => inRangeB (baseOf f) x)
      | _ => false
  else
    match v with
    | .n x => inRangeB (baseOf f) x
    | _ => false

/-- Internal consistency of a processed field with a supported non-64-bit
base type, as `processField` produces for well-formed schema types:
`typeLength` agrees with the size table, `length` is the element size
times the array length, and a scalar field has `arrayLength` 1 and is not
a bare `char`. -/
def fieldWF (f : PField) : Bool :=
  (typeLengths (baseOf f) == some f.typeLength)
    && (f.length == f.typeLength * f.arrayLength)
    && !(baseOf f == "int64_t") && !(baseOf f == "uint64_t")
    && (isArrF f || ((f.arrayLength == 1) && !(baseOf f == "char")))

/-- A data map valid for a message: every field present with a valid
value. -/
def validData (m : PMsg) (data : List (String × MavValue)) : Bool :=
  m.field.all (fun f =>
    match data.lookup f.name with
    | some v => validValue f v
    | none => false)

/-- Sequential byte stores `buffer[i] = b` with increasing index, as the
parser performs while accumulating a frame. -/
def writeAll (buf : List Nat) (i : Nat) : List Nat → List Nat
  | [] => buf
  | b :: rest => writeAll (buf.set i b) (i + 1) rest

/-! ### Facts about `trim_buffer` -/

theorem trim_buffer_snoc_nonzero (xs : List Nat) (x : Nat) (hx : x ≠ 0) :
    trim_buffer (xs ++ [x]) = xs ++ [x] := by
  have hfind : (xs ++ [x]).reverse.findIdx? (fun b => b ≠ 0) = some 0 := by
    simp [List.reverse_append, List.findIdx?_cons, hx]
  have hlen : (xs ++ [x]).length = xs.length + 1 := by simp
  simp only [trim_buffer, lastNonzeroPos, hfind, hlen]
  simpa using List.take_length (xs ++ [x])

theorem trim_buffer_snoc_zero (xs : List Nat) :
    trim_buffer (xs ++ [0]) = if xs = [] then [0] else trim_buffer xs := by
  have hrev : (xs ++ [0]).reverse = 0 :: xs.reverse := by
    rw [List.reverse_append]
    rfl
  have hfind : (xs ++ [0]).reverse.findIdx? (fun b => b ≠ 0)
      = (xs.reverse.findIdx? (fun b => b ≠ 0)).map (fun i => i + 1) := by
    rw [hrev, List.findIdx?_cons, if_neg (by decide), List.findIdx?_succ]
  rcases hk : xs.reverse.findIdx? (fun b => b ≠ 0) with _ | k
  · have hp0 : lastNonzeroPos (xs ++ [0]) = 0 := by
      unfold lastNonzeroPos
      rw [hfind, hk]
      rfl
    have hpx : lastNonzeroPos xs = 0 := by
      unfold lastNonzeroPos
      rw [hk]
    have hall : ∀ c ∈ xs, c = 0 := by
      intro c hc
      have := (List.findIdx?_eq_none_iff.mp hk) c (by simpa using hc)
      simpa using this
    rcases xs with _ | ⟨y, ys⟩
    · rw [if_pos rfl]
      rfl
    · rw [if_neg (by simp)]
      have hy : y = 0 := hall y (by simp)
      unfold trim_buffer
      rw [hp0, hpx]
      subst hy
      rfl
  · have hne : xs ≠ [] := by
      intro h
      rw [h] at hk
      simp at hk
    have hlen1 : 1 ≤ xs.length := by
      rcases xs with _ | _
      · exact absurd rfl hne
      · simp
    have hpx : lastNonzeroPos xs = xs.length - 1 - k := by
      unfold lastNonzeroPos
      rw [hk]
    have hp0 : lastNonzeroPos (xs ++ [0]) = (xs ++ [0]).length - 1 - (k + 1) := by
      unfold lastNonzeroPos
      rw [hfind, hk]
      rfl
    have hpos : lastNonzeroPos (xs ++ [0]) = lastNonzeroPos xs := by
      rw [hpx, hp0, List.length_append]
      simp only [List.length_cons, List.length_nil]
      omega
    have hle : lastNonzeroPos xs + 1 ≤ xs.length := by
      rw [hpx]
      omega
    unfold trim_buffer
    rw [hpos, if_neg hne, List.take_append_of_le_length hle]

/-- C9 helper: every byte of the argument equal to zero forces the trim
to the one-byte result. -/
theorem trim_buffer_all_zero (bs : List Nat) (hne : bs ≠ []) (hz : ∀ c ∈ bs, c = 0) :
    trim_buffer bs = [0] := by
  induction bs using List.reverseRecOn with
  | nil => exact absurd rfl hne
  | append_singleton xs x ih =>
    have hx : x = 0 := hz x (by simp)
    subst hx
    rw [trim_buffer_snoc_zero]
    by_cases hxe : xs = []
    · rw [if_pos hxe]
    · rw [if_neg hxe]
      exact ih hxe (fun c hc => hz c (by simp [hc]))

/-- C9 helper: a last nonzero byte at index `i` makes the trim the prefix
of length `i + 1`. -/
theorem trim_buffer_last_nonzero (bs : List Nat) (i : Nat) (hi : i < bs.length)
    (hnz : bs.getD i 0 ≠ 0) (hafter : ∀ j, i < j → j < bs.length → bs.getD j 0 = 0) :
    trim_buffer bs = bs.take (i + 1) := by
  induction bs using List.reverseRecOn with
  | nil => simp at hi
  | append_singleton xs x ih =>
    have hlen : (xs ++ [x]).length = xs.length + 1 := by simp
    by_cases hix : i = xs.length
    · subst hix
      have hx : x ≠ 0 := by
        have : (xs ++ [x]).getD xs.length 0 = x := by
          simp [List.getD_eq_getElem?_getD, List.getElem?_append_right]
        rw [this] at hnz
        exact hnz
      rw [trim_buffer_snoc_nonzero xs x hx]
      rw [← hlen]
      exact (List.take_length (xs ++ [x])).symm
    · have hilt : i < xs.length := by omega
      have hx : x = 0 := by
        have : (xs ++ [x]).getD xs.length 0 = x := by
          simp [List.getD_eq_getElem?_getD, List.getElem?_append_right]
        have h0 := hafter xs.length (by omega) (by omega)
        rw [this] at h0
        exact h0
      subst hx
      rw [trim_buffer_snoc_zero]
      have hne2 : xs ≠ [] := by
        intro h
        rw [h] at hilt
        simp at hilt
      simp only [if_neg hne2]
      have hgd : xs.getD i 0 = (xs ++ [(0 : Nat)]).getD i 0 := by
        simp [List.getD_eq_getElem?_getD, List.getElem?_append_left hilt]
      rw [ih hilt (by rw [hgd]; exact hnz)
        (fun j hj hjl => by
          have := hafter j hj (by omega)
          have hgd2 : xs.getD j 0 = (xs ++ [(0 : Nat)]).getD j 0 := by
            simp [List.getD_eq_getElem?_getD, List.getElem?_append_left hjl]
          rw [hgd2]
          exact this)]
      rw [List.take_append_of_le_length (by omega)]

/-! ### Claim theorems: C9, C7, C10 and the concrete counterexamples -/

/-- C9 (amended): decoding a char-array field passes its bytes through
`trim_buffer`; when some byte at index `i` is the last nonzero one the
result is the prefix up to and including it, but when every byte is zero
the result is the single byte 0 (the one-character NUL string), not the
empty string. -/
theorem C9_char_trim :
    (∀ bs : List Nat, ∀ i : Nat, i < bs.length → bs.getD i 0 ≠ 0 →
        (∀ j, i < j → j < bs.length → bs.getD j 0 = 0) →
        trim_buffer bs = bs.take (i + 1)) ∧
    (∀ bs : List Nat, bs ≠ [] → (∀ c ∈ bs, c = 0) → trim_buffer bs = [0]) :=
  ⟨trim_buffer_last_nonzero, trim_buffer_all_zero⟩

/-- Witness for C9: on `[7, 5, 0]` the trim keeps indices 0..1; on
`[0, 0, 0]` it returns the one-byte NUL string. -/
theorem C9_char_trim_witness :
    trim_buffer [7, 5, 0] = [7, 5] ∧ trim_buffer [0, 0, 0] = [0] :=
  ⟨by
    have h := C9_char_trim.1 [7, 5, 0] 1 (by decide) (by decide)
      (fun j h1 h2 => by
        have hj : j = 2 := by simp at h2; omega
        subst hj
        rfl)
    simpa using h,
   C9_char_trim.2 [0, 0, 0] (by decide) (by decide)⟩

/-- C9 counterexample: building `PARAM_VALUE` with the empty `param_id`
string (all 16 payload bytes zero) and decoding the frame yields the
one-character NUL string for `param_id`, not the empty string the claim
requires. -/
theorem C9_counterexample :
    (match (createMessage (mavlinkInit 1 1 specCatalog) (.byStr "PARAM_VALUE") paramEmptyData).2 with
     | some m => decodedLookup specCatalog (mkMessage m.buffer) "param_id"
     | none => none) = some (MavValue.s [0]) ∧ MavValue.s [0] ≠ MavValue.s [] := by
  constructor
  · decide
  · decide

/-- C7: with both origin ids zero the source only logs
"System and component ID's are zero, cannot create message!" and then
builds and delivers the frame anyway — the callback receives a 36-byte
`ATTITUDE` frame carrying sysid 0 and compid 0, contradicting the
claimed `NotConfigured` failure and the code's own log text. -/
theorem C7_zero_ids_still_build :
    ((createMessage (mavlinkInit 0 0 specCatalog) (.byStr "ATTITUDE") attitudeData).2.map
      (fun m => m.buffer.take 6)) = some [0xFE, 28, 1, 0, 0, 30] ∧
    ((createMessage (mavlinkInit 0 0 specCatalog) (.byStr "ATTITUDE") attitudeData).2.map
      (fun m => m.buffer.length)) = some 36 := by
  constructor
  · decide
  · decide

/-- C2 counterexample: the first `ATTITUDE` frame built after
construction (starting sequence counter 0) has sequence byte 1 — the
source post-increments before writing — so the frame begins
`FE 1C 01 01 01 1E`, not the claimed `FE 1C 00 01 01 1E`. -/
theorem C2_counterexample :
    ((createMessage (mavlinkInit 1 1 specCatalog) (.byStr "ATTITUDE") attitudeData).2.map
      (fun m => m.buffer.take 6)) = some [0xFE, 0x1C, 1, 1, 1, 0x1E] ∧
    some [(0xFE : Nat), 0x1C, 1, 1, 1, 0x1E] ≠ some [(0xFE : Nat), 0x1C, 0, 1, 1, 0x1E] := by
  constructor
  · decide
  · decide

/-- C4 counterexample: a checksum-passing frame whose id 99 is absent
from the catalog makes `decodeMessage` dereference an undefined
descriptor: the parser throws (the abort flag) instead of discarding the
frame or emitting a diagnostic. -/
theorem C4_counterexample :
    (parseBytes (mavlinkInit 0 0 specCatalog) unknownIdFrame).2.2 = true := by
  decide

/-- C6 counterexample: after an accepted frame with sequence byte 5, an
accepted frame with sequence byte 3 emits `sequence_error` with the raw
JS difference `3 - 5 - 1 = -3`, not the claimed value
`(3 - 5 - 1) mod 256 = 253` in `0..255`. -/
theorem C6_counterexample :
    seqGaps (parseBytes (mavlinkInit 1 1 specCatalog) (attFrameSeq 5 ++ attFrameSeq 3)).2.1
      = [4, -3] ∧ ¬(0 ≤ (-3 : Int) ∧ (-3 : Int) ≤ 255) ∧ ((-3 : Int) ≠ 253) := by
  refine ⟨by decide, by decide, by decide⟩

/-- C8 counterexample: `createMessage` on `SYSTEM_TIME`, whose first
field is `uint64_t`, still produces a frame and invokes the callback —
the 64-bit field's eight payload bytes are simply left zero — instead of
failing with `Unsupported64Bit`. -/
theorem C8_counterexample :
    ((createMessage (mavlinkInit 1 1 specCatalog) (.byStr "SYSTEM_TIME") systemTimeData).2.map
      (fun m => m.payload)) = some (List.replicate 8 0 ++ [42, 0, 0, 0]) := by
  decide

/-- C10: feeding a concatenation of two byte chunks is the same as
feeding the chunks in sequence: the final state agrees and the events
concatenate in order; if the first chunk aborts (a thrown decode error)
the concatenated feed stops at the same byte with the same events. -/
theorem C10_chunking (st : Mav) (a b : List Nat) :
    parseBytes st (a ++ b) =
      if (parseBytes st a).2.2 then parseBytes st a
      else ((parseBytes (parseBytes st a).1 b).1,
            (parseBytes st a).2.1 ++ (parseBytes (parseBytes st a).1 b).2.1,
            (parseBytes (parseBytes st a).1 b).2.2) := by
  induction a generalizing st with
  | nil => simp [parseBytes]
  | cons ch rest ih =>
    show parseBytes st (ch :: (rest ++ b)) = _
    rw [show parseBytes st (ch :: (rest ++ b)) =
        (let r := parseChar st ch
         if r.2.2 then r
         else
           let r2 := parseBytes r.1 (rest ++ b)
           (r2.1, r.2.1 ++ r2.2.1, r2.2.2)) from rfl,
      show parseBytes st (ch :: rest) =
        (let r := parseChar st ch
         if r.2.2 then r
         else
           let r2 := parseBytes r.1 rest
           (r2.1, r.2.1 ++ r2.2.1, r2.2.2)) from rfl]
    by_cases h : (parseChar st ch).2.2
    · simp [h]
    · simp only [if_neg h]
      rw [ih]
      by_cases h2 : (parseBytes (parseChar st ch).1 rest).2.2
      · simp [h2, List.append_assoc]
      · simp [h2, List.append_assoc]

/-! ### Case shapes of `checkFrame` and `parseChar` -/

theorem checkFrame_throw_char (s : Mav) (h : (checkFrame s).2.2 = true) :
    isError (decodeMessage s.catalog (mkMessage s.buffer)) = true ∧
    calculateChecksum (crcBufOf s) = receivedOf s ∧
    originGate s (mkMessage s.buffer) ∧
    (checkFrame s).1.buffer = s.buffer ∧
    (checkFrame s).1.messageLength = s.messageLength ∧
    (checkFrame s).1.catalog = s.catalog := by
  unfold checkFrame at h ⊢
  by_cases hcrc : calculateChecksum (crcBufOf s) = receivedOf s
  · rw [if_pos hcrc] at h ⊢
    by_cases hg : originGate s (mkMessage s.buffer)
    · rw [if_pos hg] at h ⊢
      cases hdec : decodeMessage s.catalog (mkMessage s.buffer) with
      | error e =>
        exact ⟨rfl, hcrc, hg, rfl, rfl, rfl⟩
      | ok flds =>
        rw [hdec] at h
        simp at h
    · rw [if_neg hg] at h
      simp at h
  · rw [if_neg hcrc] at h
    simp at h

theorem checkFrame_crcok_events (s : Mav)
    (hcrc : calculateChecksum (crcBufOf s) = receivedOf s) :
    ∃ tail, (checkFrame s).2.1 = seqEvents s ++ tail := by
  unfold checkFrame
  rw [if_pos hcrc]
  by_cases hg : originGate s (mkMessage s.buffer)
  · rw [if_pos hg]
    cases hdec : decodeMessage s.catalog (mkMessage s.buffer) with
    | error e => exact ⟨[], by simp⟩
    | ok flds => exact ⟨_, rfl⟩
  · rw [if_neg hg]
    exact ⟨[], by simp⟩

theorem seqEvents_pos (s : Mav) (hb2 : 0 < s.buffer.getD 2 0)
    (hd : (s.buffer.getD 2 0 : Int) - (s.lastCounter : Int) ≠ 1) :
    seqEvents s = [Event.sequenceError ((s.buffer.getD 2 0 : Int) - (s.lastCounter : Int) - 1)] := by
  unfold seqEvents
  rw [if_pos ⟨hb2, hd⟩]

/-! ### Claim C4 -/

theorem crcBufOf_congr (a b : Mav) (hb : a.buffer = b.buffer)
    (hm : a.messageLength = b.messageLength) (hc : a.catalog = b.catalog) :
    crcBufOf a = crcBufOf b := by
  unfold crcBufOf
  rw [hb, hm, hc]

theorem receivedOf_congr (a b : Mav) (hb : a.buffer = b.buffer)
    (hm : a.messageLength = b.messageLength) :
    receivedOf a = receivedOf b := by
  unfold receivedOf
  rw [hb, hm]

/-- C4 (amended): an abort of `parseChar` — an exception escaping the
parser — happens only when a completed frame has passed checksum
validation, passed the origin filter, and then failed to decode (its id
absent from the catalog, an unsupported type token, or a payload shorter
than the descriptor layout); every other byte is consumed silently or
with only diagnostic or delivery events.  In particular a checksum-
passing frame with an unknown id throws rather than being discarded, so
the claim's unqualified never-throws guarantee fails. -/
theorem C4_throw_only_after_accept (st : Mav) (ch : Nat)
    (h : (parseChar st ch).2.2 = true) :
    isError (decodeMessage st.catalog (mkMessage (parseChar st ch).1.buffer)) = true ∧
    calculateChecksum (crcBufOf (parseChar st ch).1) = receivedOf (parseChar st ch).1 ∧
    originGate st (mkMessage (parseChar st ch).1.buffer) := by
  unfold parseChar at h ⊢
  by_cases h1 : st.bufferIndex = 0 ∧ ch = 0xFE
  · rw [if_pos h1] at h
    simp at h
  · rw [if_neg h1] at h ⊢
    by_cases h2 : st.bufferIndex = 1
    · rw [if_pos h2] at h
      simp at h
    · rw [if_neg h2] at h ⊢
      by_cases h3 : 1 < st.bufferIndex ∧ st.bufferIndex < st.messageLength + 8
      · rw [if_pos h3] at h ⊢
        by_cases h4 : st.bufferIndex + 1 = st.messageLength + 8
        · rw [if_pos h4] at h ⊢
          obtain ⟨hd, hc, hg, hb, hm, hcat⟩ := checkFrame_throw_char _ h
          refine ⟨by rw [hb]; exact hd, ?_, by rw [hb]; exact hg⟩
          rw [crcBufOf_congr _ _ hb hm hcat, receivedOf_congr _ _ hb hm]
          exact hc
        · rw [if_neg h4] at h
          simp at h
      · rw [if_neg h3] at h ⊢
        by_cases h4 : st.bufferIndex = st.messageLength + 8
        · rw [if_pos h4] at h ⊢
          obtain ⟨hd, hc, hg, hb, hm, hcat⟩ := checkFrame_throw_char st h
          refine ⟨by rw [hb]; exact hd, ?_, by rw [hb]; exact hg⟩
          rw [crcBufOf_congr _ _ hb hm hcat, receivedOf_congr _ _ hb hm]
          exact hc
        · rw [if_neg h4] at h
          simp at h

/-- Witness for C4: the final byte of the unknown-id frame aborts the
parser, and the theorem yields the decode failure of that accepted frame. -/
theorem C4_throw_only_after_accept_witness :
    isError (decodeMessage c4WitState.catalog
      (mkMessage (parseChar c4WitState (unknownIdFrame.getD 7 0)).1.buffer)) = true :=
  (C4_throw_only_after_accept c4WitState (unknownIdFrame.getD 7 0) (by decide)).1

/-! ### Claim C6 -/

/-- C6 (amended): when the byte completing a frame makes the checksum
validate and the frame's sequence byte is nonzero and does not follow
`lastCounter` by one, the parser emits `sequence_error` whose gap is the
plain JS difference `buffer[2] - last_sequence - 1` — congruent to the
claimed `(buffer[2] - last_sequence - 1) mod 256` but possibly negative,
not a value in `0..255`; feeding two valid frames with sequence bytes 5
then 9 emits gaps 4 and then 3. -/
theorem C6_sequence_error_gap :
    (∀ (st : Mav) (ch : Nat) (s : Mav),
      st.bufferIndex = st.messageLength + 7 →
      s = {st with buffer := st.buffer.set st.bufferIndex ch, bufferIndex := st.bufferIndex + 1} →
      calculateChecksum (crcBufOf s) = receivedOf s →
      0 < s.buffer.getD 2 0 →
      (s.buffer.getD 2 0 : Int) - (st.lastCounter : Int) ≠ 1 →
      Event.sequenceError ((s.buffer.getD 2 0 : Int) - (st.lastCounter : Int) - 1)
        ∈ (parseChar st ch).2.1) ∧
    seqGaps (parseBytes (mavlinkInit 1 1 specCatalog) (attFrameSeq 5 ++ attFrameSeq 9)).2.1
      = [4, 3] := by
  constructor
  · intro st ch s hidx hs hcrc hb2 hdiff
    subst hs
    have hstep : parseChar st ch = checkFrame
        { st with
          buffer := st.buffer.set st.bufferIndex ch,
          bufferIndex := st.bufferIndex + 1 } := by
      unfold parseChar
      rw [if_neg (show ¬(st.bufferIndex = 0 ∧ ch = 0xFE) from fun hx => by omega),
        if_neg (show ¬st.bufferIndex = 1 from by omega),
        if_pos (show 1 < st.bufferIndex ∧ st.bufferIndex < st.messageLength + 8 from by omega),
        if_pos (show st.bufferIndex + 1 = st.messageLength + 8 from by omega)]
    rw [hstep]
    obtain ⟨tail, htail⟩ := checkFrame_crcok_events _ hcrc
    rw [htail, seqEvents_pos _ hb2 hdiff]
    simp
  · decide

/-- Witness for C6: the byte completing the sequence-3 frame after an
accepted sequence-5 frame emits the gap event with the raw difference. -/
theorem C6_sequence_error_gap_witness :
    Event.sequenceError ((c6WitStored.buffer.getD 2 0 : Int) - (c6WitState.lastCounter : Int) - 1)
      ∈ (parseChar c6WitState c6WitChar).2.1 :=
  C6_sequence_error_gap.1 c6WitState c6WitChar c6WitStored (by decide) rfl
    (by decide) (by decide) (by decide)

/-! ### Claim C2 -/

theorem nextSeq_eq_mod (n : Nat) (h : n ≤ 255) :
    (if n = 255 then 0 else n + 1) = (n + 1) % 256 := by
  by_cases h1 : n = 255
  · subst h1
    rfl
  · rw [if_neg h1, Nat.mod_eq_of_lt (by omega)]

/-- A successful build: the sequence counter post-increments (with wrap)
and the delivered message's sequence byte is the new counter value. -/
theorem createMessage_success (st : Mav) (mid : MsgRef) (data : List (String × MavValue))
    (m : PMsg) (hid : byID st.catalog (refId st.catalog mid) = some m)
    (hdata : m.field.all (fun f => (data.lookup f.name).isSome) = true) :
    (createMessage st mid data).1
        = {st with sequence := if st.sequence = 255 then 0 else st.sequence + 1} ∧
    ∃ msg, (createMessage st mid data).2 = some msg ∧
      msg.sequence = (if st.sequence = 255 then 0 else st.sequence + 1) % 256 := by
  unfold createMessage
  simp only [hid]
  rw [if_pos hdata]
  refine ⟨rfl, _, rfl, ?_⟩
  simp [mkMessage, List.getD]

theorem C2_sequence_bytes :
    (∀ (st : Mav) (mid : MsgRef) (data : List (String × MavValue)) (N : Nat) (m : PMsg),
      byID st.catalog (refId st.catalog mid) = some m →
      m.field.all (fun f => (data.lookup f.name).isSome) = true →
      st.sequence ≤ 255 →
      (buildRepeat st mid data N).length = N ∧
      ∀ j, ∀ hj : j < (buildRepeat st mid data N).length,
        ((buildRepeat st mid data N).get ⟨j, hj⟩).sequence = (st.sequence + 1 + j) % 256) ∧
    (∀ (st : Mav) (mid : MsgRef) (data : List (String × MavValue)),
      (createMessage st mid data).2 = none → (createMessage st mid data).1 = st) ∧
    ((createMessage (mavlinkInit 1 1 specCatalog) (.byStr "ATTITUDE") attitudeData).2.map
      (fun msg => (msg.buffer.length, msg.buffer.take 6))
        = some (36, [0xFE, 0x1C, 1, 1, 1, 0x1E])) ∧
    ((createMessage (mavlinkInit 1 1 specCatalog) (.byStr "ATTITUDE") attitudeData).2.map
      (fun msg => calculateChecksum ((msg.buffer.drop 1).take 33 ++ [seedOf specCatalog 30])
         == fromLE ((msg.buffer.drop 34).take 2)) = some true) := by
  refine ⟨?_, ?_, by decide, by decide⟩
  · intro st mid data N m hid hdata hseq
    induction N generalizing st with
    | zero =>
      refine ⟨rfl, ?_⟩
      intro j hj
      simp [buildRepeat] at hj
    | succ n ih =>
      obtain ⟨hst, msg, hmsg, hmseq⟩ := createMessage_success st mid data m hid hdata
      have hcm : createMessage st mid data =
          ({st with sequence := if st.sequence = 255 then 0 else st.sequence + 1}, some msg) := by
        rw [Prod.ext_iff]
        exact ⟨hst, hmsg⟩
      have hbr : buildRepeat st mid data (n + 1) =
          msg :: buildRepeat {st with sequence := if st.sequence = 255 then 0 else st.sequence + 1}
            mid data n := by
        simp only [buildRepeat, hcm]
      have hseq1 : (if st.sequence = 255 then 0 else st.sequence + 1) ≤ 255 := by
        split <;> omega
      obtain ⟨ihl, ihg⟩ := ih {st with sequence := if st.sequence = 255 then 0 else st.sequence + 1}
        hid hseq1
      refine ⟨by rw [hbr]; simp [ihl], ?_⟩
      intro j hj
      cases j with
      | zero =>
        have hg0 : (buildRepeat st mid data (n + 1)).get ⟨0, hj⟩ = msg := by
          rw [List.get_of_eq hbr]
          rfl
        rw [hg0, hmseq, nextSeq_eq_mod st.sequence hseq]
        omega
      | succ i =>
        have hlen : i < (buildRepeat
            {st with sequence := if st.sequence = 255 then 0 else st.sequence + 1}
            mid data n).length := by
          rw [hbr] at hj
          simpa using hj
        have hgt : (buildRepeat st mid data (n + 1)).get ⟨i + 1, hj⟩ =
            (buildRepeat {st with sequence := if st.sequence = 255 then 0 else st.sequence + 1}
              mid data n).get ⟨i, hlen⟩ := by
          rw [List.get_of_eq hbr]
          rfl
        rw [hgt, ihg i hlen]
        show ((if st.sequence = 255 then 0 else st.sequence + 1) + 1 + i) % 256
          = (st.sequence + 1 + (i + 1)) % 256
        rw [nextSeq_eq_mod st.sequence hseq, Nat.add_assoc, Nat.mod_add_mod]
        congr 1
        omega
  · intro st mid data hnone
    cases hid : byID st.catalog (refId st.catalog mid) with
    | none =>
      unfold createMessage
      simp only [hid]
    | some m =>
      unfold createMessage at hnone ⊢
      simp only [hid] at hnone ⊢
      by_cases hall : (m.field.all fun f => (List.lookup f.name data).isSome) = true
      · rw [if_pos hall] at hnone
        simp at hnone
      · rw [if_neg hall]

/-- Witness for C2: the third of three successful `ATTITUDE` builds from
a fresh codec carries sequence byte 3. -/
theorem C2_sequence_bytes_witness :
    ((buildRepeat (mavlinkInit 1 1 specCatalog) (.byStr "ATTITUDE") attitudeData 3).get
      ⟨2, by decide⟩).sequence = ((mavlinkInit 1 1 specCatalog).sequence + 1 + 2) % 256 :=
  (C2_sequence_bytes.1 (mavlinkInit 1 1 specCatalog) (.byStr "ATTITUDE") attitudeData 3
    (compileMessage rawATTITUDE) (by decide) (by decide) (by decide)).2 2 (by decide)

/-! ### Claim C3 -/

theorem splitOnSpaceAux_ne_nil (cs : List Char) : ∀ acc, splitOnSpaceAux acc cs ≠ [] := by
  induction cs with
  | nil =>
    intro acc
    simp [splitOnSpaceAux]
  | cons c rest ih =>
    intro acc
    unfold splitOnSpaceAux
    by_cases h : c = ' '
    · rw [if_pos h]
      simp
    · rw [if_neg h]
      exact ih _

theorem splitType_ne_nil (t : String) : splitType t ≠ [] :=
  splitOnSpaceAux_ne_nil _ []

/-- A field's signature contribution computed by the source equals the
spec's per-field signature, provided the bracket component (when present)
parses to the recorded array length. -/
theorem fieldSigBytes_eq_spec (f : PField)
    (hwf : (splitType f.typ).length ≤ 1 ∨
      parseIntNat ((splitType f.typ).getD 1 "") = f.arrayLength) :
    fieldSigBytes f = strBytes (baseOf f) ++ [32] ++ strBytes f.name ++ [32] ++
      (if isArrF f then utf8Char f.arrayLength else []) := by
  rcases hsp : splitType f.typ with _ | ⟨b, rest⟩
  · exact absurd hsp (splitType_ne_nil f.typ)
  · rcases rest with _ | ⟨s2, rest2⟩
    · unfold fieldSigBytes baseOf isArrF
      rw [hsp]
      simp
    · have harr : parseIntNat s2 = f.arrayLength := by
        rcases hwf with h | h
        · rw [hsp] at h
          simp at h
        · rw [hsp] at h
          simpa using h
      unfold fieldSigBytes baseOf isArrF
      rw [hsp]
      simp [harr]

/-- C3: for every message of a catalog built by the loader, the stored
per-message seed equals the byte fold `(crc AND 0xFF) XOR (crc >> 8)` of
the X.25 CRC of the spec's canonical signature string over the
layout-ordered field list. -/
theorem C3_crc_seed (msgs : List RawMsg) (m : PMsg) (hm : m ∈ buildCatalog msgs)
    (hwf : ∀ f ∈ m.field, (splitType f.typ).length ≤ 1 ∨
      parseIntNat ((splitType f.typ).getD 1 "") = f.arrayLength) :
    m.seed = Nat.xor (calculateChecksum (specSignature m.name m.field) % 256)
      (calculateChecksum (specSignature m.name m.field) / 256) := by
  obtain ⟨raw, hraw, rfl⟩ := List.mem_map.mp hm
  have hmap : (orderFields raw.field).map fieldSigBytes
      = (orderFields raw.field).map (fun f => strBytes (baseOf f) ++ [32] ++ strBytes f.name
          ++ [32] ++ (if isArrF f then utf8Char f.arrayLength else [])) :=
    List.map_congr_left (fun f hf => fieldSigBytes_eq_spec f (hwf f hf))
  show calculateMessageChecksum raw = _
  unfold calculateMessageChecksum checksumStringBytes
  show _ = Nat.xor (calculateChecksum (specSignature raw.name (orderFields raw.field)) % 256)
    (calculateChecksum (specSignature raw.name (orderFields raw.field)) / 256)
  unfold specSignature
  rw [hmap]

/-- Witness for C3: the `PARAM_VALUE` descriptor's stored seed matches
the spec signature formula (exercising the char-array path). -/
theorem C3_crc_seed_witness :
    (compileMessage rawPARAM_VALUE).seed = Nat.xor
      (calculateChecksum (specSignature (compileMessage rawPARAM_VALUE).name
        (compileMessage rawPARAM_VALUE).field) % 256)
      (calculateChecksum (specSignature (compileMessage rawPARAM_VALUE).name
        (compileMessage rawPARAM_VALUE).field) / 256) :=
  C3_crc_seed [rawATTITUDE, rawPARAM_VALUE, rawSYSTEM_TIME] (compileMessage rawPARAM_VALUE)
    (by decide) (by decide)

/-! ### Claim C5 -/

theorem fieldLe_iff (a b : PField) : fieldLe a b = true ↔
    (b.typeLength < a.typeLength ∨
      (a.typeLength = b.typeLength ∧ a.initialPos ≤ b.initialPos)) := by
  unfold fieldLe
  by_cases h : a.typeLength = b.typeLength
  · simp only [if_pos h, decide_eq_true_eq]
    constructor
    · exact fun hx => Or.inr ⟨h, hx⟩
    · rintro (hx | ⟨_, hx⟩)
      · omega
      · exact hx
  · simp only [if_neg h, decide_eq_true_eq]
    constructor
    · exact fun hx => Or.inl hx
    · rintro (hx | ⟨he, _⟩)
      · exact hx
      · exact absurd he h

instance : IsTotal PField LayoutRel :=
  ⟨fun a b => by
    unfold LayoutRel
    rw [fieldLe_iff, fieldLe_iff]
    omega⟩

instance : IsTrans PField LayoutRel :=
  ⟨fun a b c hab hbc => by
    unfold LayoutRel at hab hbc ⊢
    rw [fieldLe_iff] at hab hbc ⊢
    omega⟩

theorem processedFields_initialPos (fs : List RawField) (j : Nat)
    (hj : j < (processedFields fs).length) :
    ((processedFields fs).get ⟨j, hj⟩).initialPos = j := by
  simp [processedFields, List.get_eq_getElem, List.getElem_map, List.getElem_enum, processField]

/-- C5: every descriptor of a built catalog has `payloadLength` equal to
the sum over its fields of element size times array length, and its field
list is the stable descending sort by element size of the processed
schema-order fields, with the original schema position (recorded in
`initialPos`) as tie-breaker. -/
theorem C5_layout_invariants (msgs : List RawMsg) (m : PMsg) (hm : m ∈ buildCatalog msgs)
    (hwf : ∀ f ∈ m.field, f.length = f.typeLength * f.arrayLength) :
    m.payloadLength = (m.field.map (fun f => f.typeLength * f.arrayLength)).sum ∧
    m.field.Pairwise (fun a b => b.typeLength < a.typeLength ∨
      (a.typeLength = b.typeLength ∧ a.initialPos ≤ b.initialPos)) ∧
    ∃ raw ∈ msgs, m.field.Perm (processedFields raw.field) ∧
      ∀ j, ∀ hj : j < (processedFields raw.field).length,
        ((processedFields raw.field).get ⟨j, hj⟩).initialPos = j := by
  obtain ⟨raw, hraw, rfl⟩ := List.mem_map.mp hm
  have hperm : (compileMessage raw).field.Perm (processedFields raw.field) :=
    List.perm_insertionSort LayoutRel (processedFields raw.field)
  refine ⟨?_, ?_, raw, hraw, hperm, ?_⟩
  · show payloadLengthOf raw.field = _
    unfold payloadLengthOf
    rw [(hperm.map (fun f => f.length)).sum_eq.symm]
    exact congrArg List.sum (List.map_congr_left (fun f hf => hwf f hf))
  · exact (List.sorted_insertionSort LayoutRel (processedFields raw.field)).imp
      (fun hab => (fieldLe_iff _ _).mp hab)
  · exact fun j hj => processedFields_initialPos raw.field j hj

/-- Witness for C5: the `PARAM_VALUE` descriptor's payload length is the
sum of its fields' element sizes times array lengths. -/
theorem C5_layout_invariants_witness :
    (compileMessage rawPARAM_VALUE).payloadLength
      = ((compileMessage rawPARAM_VALUE).field.map
          (fun f => f.typeLength * f.arrayLength)).sum :=
  (C5_layout_invariants [rawATTITUDE, rawPARAM_VALUE, rawSYSTEM_TIME]
    (compileMessage rawPARAM_VALUE) (by decide) (by decide)).1

/-! ### Claim C8 -/

theorem encodeElem_64 (b : String) (hb : b = "int64_t" ∨ b = "uint64_t") (e : MavValue) :
    encodeElem b e = [] := by
  rcases hb with h | h <;> subst h <;> rfl

theorem flatten_map_nil {α : Type} (l : List α) :
    (l.map (fun _ => ([] : List Nat))).flatten = [] := by
  induction l with
  | nil => rfl
  | cons a rest ih => simp [ih]

/-- C8 (amended): `createMessage` on a descriptor containing an
`int64_t` or `uint64_t` field does not fail — the callback still receives
a frame — and the 64-bit fields simply contribute all-zero bytes to the
payload (the source only logs a warning and writes nothing). -/
theorem C8_sixtyfour_builds (st : Mav) (mid : MsgRef) (data : List (String × MavValue))
    (m : PMsg) (hid : byID st.catalog (refId st.catalog mid) = some m)
    (hdata : m.field.all (fun f => (data.lookup f.name).isSome) = true)
    (h64 : ∃ f ∈ m.field, baseOf f = "int64_t" ∨ baseOf f = "uint64_t") :
    (createMessage st mid data).2.isSome = true ∧
    ∀ f ∈ m.field, (baseOf f = "int64_t" ∨ baseOf f = "uint64_t") →
      ∀ v, bufferFieldBytes f v = List.replicate f.length 0 := by
  constructor
  · obtain ⟨_, msg, hmsg, _⟩ := createMessage_success st mid data m hid hdata
    rw [hmsg]
    rfl
  · intro f hf hb v
    unfold bufferFieldBytes
    rw [List.map_congr_left (fun e he => encodeElem_64 ((splitType f.typ).headD "") hb e),
      flatten_map_nil]
    simp

/-- Witness for C8: the `SYSTEM_TIME` build (first field `uint64_t`)
still delivers a frame. -/
theorem C8_sixtyfour_builds_witness :
    (createMessage (mavlinkInit 1 1 specCatalog) (.byStr "SYSTEM_TIME") systemTimeData).2.isSome
      = true :=
  (C8_sixtyfour_builds (mavlinkInit 1 1 specCatalog) (.byStr "SYSTEM_TIME") systemTimeData
    (compileMessage rawSYSTEM_TIME) (by decide) (by decide) (by decide)).1

/-! ### Byte-codec lemmas for the round-trip claim -/

theorem leBytes_length (v n : Nat) : (leBytes v n).length = n := by
  induction n generalizing v with
  | zero => rfl
  | succ k ih => simp [leBytes, ih]

theorem fromLE_cons (a : Nat) (l : List Nat) : fromLE (a :: l) = a + 256 * fromLE l := rfl

theorem fromLE_leBytes (v n : Nat) : fromLE (leBytes v n) = v % 256 ^ n := by
  induction n generalizing v with
  | zero => simp [leBytes, fromLE, Nat.mod_one]
  | succ k ih =>
    show fromLE (v % 256 :: leBytes (v / 256) k) = v % 256 ^ (k + 1)
    rw [fromLE_cons, ih,
      show (256 : Nat) ^ (k + 1) = 256 * 256 ^ k from by ring, Nat.mod_mul]

theorem intLE_length (x : Int) (sz : Nat) : (intLE x sz).length = sz := by
  unfold intLE
  exact leBytes_length _ _

theorem calculateChecksum_aux_lt (bs : List Nat) :
    ∀ acc, acc < 65536 → bs.foldl crcStep acc < 65536 := by
  induction bs with
  | nil => exact fun acc h => h
  | cons b rest ih =>
    intro acc h
    exact ih _ (Nat.mod_lt _ (by norm_num))

theorem calculateChecksum_lt (bs : List Nat) : calculateChecksum bs < 65536 :=
  calculateChecksum_aux_lt bs 0xFFFF (by norm_num)

theorem readU_at (pre mid post : List Nat) (n : Nat) (h : mid.length = n) :
    readU (pre ++ mid ++ post) pre.length n = .ok (fromLE mid) := by
  unfold readU
  rw [if_pos (by simp [← h])]
  congr 1
  rw [List.append_assoc, List.drop_left, ← h, List.take_left]


theorem fromLE_intLE (x : Int) (sz : Nat) (h1 : 0 ≤ x) (h2 : x < (2 : Int) ^ (8 * sz)) :
    (fromLE (intLE x sz) : Int) = x := by
  unfold intLE
  have hemod : x.emod ((2 : Int) ^ (8 * sz)) = x := Int.emod_eq_of_lt h1 h2
  rw [fromLE_leBytes, hemod]
  have hlt : x.toNat < 2 ^ (8 * sz) := by
    rw [Int.toNat_lt h1]
    push_cast
    exact h2
  rw [show (256 : Nat) ^ sz = 2 ^ (8 * sz) from by
      rw [show (256 : Nat) = 2 ^ 8 from rfl, ← pow_mul],
    Nat.mod_eq_of_lt hlt, Int.toNat_of_nonneg h1]

theorem signed_emod (x : Int) (bits : Nat) (hbits : 1 ≤ bits)
    (h1 : -(2 ^ (bits - 1) : Int) ≤ x) (h2 : x < (2 ^ (bits - 1) : Int)) :
    x.emod ((2 : Int) ^ bits) = if 0 ≤ x then x else x + 2 ^ bits := by
  have hpow : (2 : Int) ^ bits = 2 ^ (bits - 1) * 2 := by
    rw [← pow_succ]
    congr 1
    omega
  have hHpos : (0 : Int) < 2 ^ (bits - 1) := pow_pos (by norm_num) _
  by_cases hx : 0 ≤ x
  · rw [if_pos hx]
    exact Int.emod_eq_of_lt hx (by omega)
  · rw [if_neg hx]
    have key : (x + 2 ^ bits * 1).emod ((2 : Int) ^ bits) = x + 2 ^ bits * 1 :=
      Int.emod_eq_of_lt (by omega) (by omega)
    have key2 : x.emod ((2 : Int) ^ bits) = (x + 2 ^ bits * 1).emod ((2 : Int) ^ bits) :=
      (Int.add_mul_emod_self_left x ((2 : Int) ^ bits) 1).symm
    rw [key2, key]
    ring

theorem toSigned_intLE (x : Int) (sz bits : Nat) (hb : bits = 8 * sz) (hsz : 1 ≤ sz)
    (h1 : -(2 ^ (bits - 1) : Int) ≤ x) (h2 : x < (2 ^ (bits - 1) : Int)) :
    toSigned (fromLE (intLE x sz)) bits = x := by
  have hbits : 1 ≤ bits := by omega
  have hpow : (2 : Int) ^ bits = 2 ^ (bits - 1) * 2 := by
    rw [← pow_succ]
    congr 1
    omega
  have hHpos : (0 : Int) < 2 ^ (bits - 1) := pow_pos (by norm_num) _
  have hval : fromLE (intLE x sz) = (x.emod ((2 : Int) ^ (8 * sz))).toNat := by
    unfold intLE
    rw [fromLE_leBytes]
    have hnn : 0 ≤ x.emod ((2 : Int) ^ (8 * sz)) :=
      Int.emod_nonneg x (by positivity)
    have hltI : x.emod ((2 : Int) ^ (8 * sz)) < (2 : Int) ^ (8 * sz) :=
      Int.emod_lt_of_pos x (by positivity)
    have hlt : (x.emod ((2 : Int) ^ (8 * sz))).toNat < 2 ^ (8 * sz) := by
      rw [Int.toNat_lt hnn]
      push_cast
      exact hltI
    rw [show (256 : Nat) ^ sz = 2 ^ (8 * sz) from by
        rw [show (256 : Nat) = 2 ^ 8 from rfl, ← pow_mul],
      Nat.mod_eq_of_lt hlt]
  rw [hval, ← hb, signed_emod x bits hbits h1 h2]
  unfold toSigned
  by_cases hx : 0 ≤ x
  · rw [if_pos hx,
      if_pos (by
        rw [Int.toNat_lt hx]
        push_cast
        exact h2),
      Int.toNat_of_nonneg hx]
  · rw [if_neg hx,
      if_neg (by
        rw [Int.toNat_lt (by omega : (0 : Int) ≤ x + 2 ^ bits)]
        push_cast
        omega),
      Int.toNat_of_nonneg (by omega : (0 : Int) ≤ x + 2 ^ bits)]
    ring

theorem readVal_char_elem (c : Nat) (pre post : List Nat) :
    readVal "char" (pre ++ [c] ++ post) pre.length = .ok ((c : Nat) : Int) := by
  have hrv : ∀ (payload : List Nat) (off : Nat), readVal "char" payload off
      = (readU payload off 1).map (fun y => (y : Int)) := fun _ _ => rfl
  rw [hrv, readU_at pre [c] post 1 rfl]
  show Except.ok ((fromLE [c] : Nat) : Int) = Except.ok ((c : Nat) : Int)
  norm_num [fromLE]

/-- One unsigned `intLE`-encoded element reads back unchanged. -/
theorem readVal_elem_unsigned (b : String) (sz : Nat) (x : Int) (pre post : List Nat)
    (hrv : ∀ (payload : List Nat) (off : Nat),
      readVal b payload off = (readU payload off sz).map (fun y => (y : Int)))
    (henc : encodeElem b (MavValue.n x) = intLE x sz)
    (h1 : 0 ≤ x) (h2 : x < (2 : Int) ^ (8 * sz)) :
    readVal b (pre ++ encodeElem b (MavValue.n x) ++ post) pre.length = .ok x := by
  rw [henc, hrv, readU_at pre _ post sz (intLE_length _ _)]
  show Except.ok ((fromLE (intLE x sz) : Nat) : Int) = Except.ok x
  rw [fromLE_intLE x sz h1 h2]

/-- One signed `intLE`-encoded element reads back unchanged through
`toSigned`. -/
theorem readVal_elem_signed (b : String) (sz bits : Nat) (x : Int) (pre post : List Nat)
    (hb : bits = 8 * sz) (hsz : 1 ≤ sz)
    (hrv : ∀ (payload : List Nat) (off : Nat),
      readVal b payload off = (readU payload off sz).map (fun y => toSigned y bits))
    (henc : encodeElem b (MavValue.n x) = intLE x sz)
    (h1 : -(2 ^ (bits - 1) : Int) ≤ x) (h2 : x < (2 ^ (bits - 1) : Int)) :
    readVal b (pre ++ encodeElem b (MavValue.n x) ++ post) pre.length = .ok x := by
  rw [henc, hrv, readU_at pre _ post sz (intLE_length _ _)]
  show Except.ok (toSigned (fromLE (intLE x sz)) bits) = Except.ok x
  rw [toSigned_intLE x sz bits hb hsz h1 h2]

/-- One bit-pattern element (`float`/`double`) reads back unchanged: the
stored wire pattern is nonnegative and below `2 ^ (8 * sz)`. -/
theorem readVal_elem_pattern (b : String) (sz : Nat) (x : Int) (pre post : List Nat)
    (hrv : ∀ (payload : List Nat) (off : Nat),
      readVal b payload off = (readU payload off sz).map (fun y => (y : Int)))
    (henc : encodeElem b (MavValue.n x) = leBytes x.toNat sz)
    (h1 : 0 ≤ x) (h2 : x < (2 : Int) ^ (8 * sz)) :
    readVal b (pre ++ encodeElem b (MavValue.n x) ++ post) pre.length = .ok x := by
  rw [henc, hrv, readU_at pre _ post sz (leBytes_length _ _)]
  show Except.ok ((fromLE (leBytes x.toNat sz) : Nat) : Int) = Except.ok x
  have hlt : x.toNat < 256 ^ sz := by
    rw [show (256 : Nat) ^ sz = 2 ^ (8 * sz) from by
        rw [show (256 : Nat) = 2 ^ 8 from rfl, ← pow_mul],
      Int.toNat_lt h1]
    push_cast
    exact h2
  rw [fromLE_leBytes, Nat.mod_eq_of_lt hlt, Int.toNat_of_nonneg h1]

/-- One in-range numeric element written by `bufferField` reads back to
the same value at the same offset, for every supported non-64-bit,
non-char base type. -/
theorem readVal_encodeElem (b : String) (tl : Nat) (hb : typeLengths b = some tl)
    (h164 : b ≠ "int64_t") (hu64 : b ≠ "uint64_t") (hc : b ≠ "char")
    (x : Int) (hx : inRangeB b x = true) (pre post : List Nat) :
    readVal b (pre ++ encodeElem b (MavValue.n x) ++ post) pre.length = .ok x := by
  by_cases h1 : b = "float"
  · subst h1
    have hx2 : 0 ≤ x ∧ x < 2 ^ 32 := by
      have he : inRangeB "float" x = decide (0 ≤ x ∧ x < 2 ^ 32) := rfl
      rw [he, decide_eq_true_eq] at hx
      exact hx
    exact readVal_elem_pattern "float" 4 x pre post (fun _ _ => rfl) rfl hx2.1 hx2.2
  by_cases h2 : b = "double"
  · subst h2
    have hx2 : 0 ≤ x ∧ x < 2 ^ 64 := by
      have he : inRangeB "double" x = decide (0 ≤ x ∧ x < 2 ^ 64) := rfl
      rw [he, decide_eq_true_eq] at hx
      exact hx
    exact readVal_elem_pattern "double" 8 x pre post (fun _ _ => rfl) rfl hx2.1 hx2.2
  by_cases h3 : b = "int8_t"
  · subst h3
    have hx2 : -(2 ^ 7) ≤ x ∧ x < 2 ^ 7 := by
      have he : inRangeB "int8_t" x = decide (-(2 ^ 7) ≤ x ∧ x < 2 ^ 7) := rfl
      rw [he, decide_eq_true_eq] at hx
      exact hx
    exact readVal_elem_signed "int8_t" 1 8 x pre post rfl (by norm_num)
      (fun _ _ => rfl) rfl hx2.1 hx2.2
  by_cases h4 : b = "uint8_t"
  · subst h4
    have hx2 : 0 ≤ x ∧ x < 2 ^ 8 := by
      have he : inRangeB "uint8_t" x = decide (0 ≤ x ∧ x < 2 ^ 8) := rfl
      rw [he, decide_eq_true_eq] at hx
      exact hx
    exact readVal_elem_unsigned "uint8_t" 1 x pre post (fun _ _ => rfl) rfl hx2.1 hx2.2
  by_cases h4b : b = "uint8_t_mavlink_version"
  · subst h4b
    have hx2 : 0 ≤ x ∧ x < 2 ^ 8 := by
      have he : inRangeB "uint8_t_mavlink_version" x = decide (0 ≤ x ∧ x < 2 ^ 8) := rfl
      rw [he, decide_eq_true_eq] at hx
      exact hx
    exact readVal_elem_unsigned "uint8_t_mavlink_version" 1 x pre post
      (fun _ _ => rfl) rfl hx2.1 hx2.2
  by_cases h5 : b = "int16_t"
  · subst h5
    have hx2 : -(2 ^ 15) ≤ x ∧ x < 2 ^ 15 := by
      have he : inRangeB "int16_t" x = decide (-(2 ^ 15) ≤ x ∧ x < 2 ^ 15) := rfl
      rw [he, decide_eq_true_eq] at hx
      exact hx
    exact readVal_elem_signed "int16_t" 2 16 x pre post rfl (by norm_num)
      (fun _ _ => rfl) rfl hx2.1 hx2.2
  by_cases h6 : b = "uint16_t"
  · subst h6
    have hx2 : 0 ≤ x ∧ x < 2 ^ 16 := by
      have he : inRangeB "uint16_t" x = decide (0 ≤ x ∧ x < 2 ^ 16) := rfl
      rw [he, decide_eq_true_eq] at hx
      exact hx
    exact readVal_elem_unsigned "uint16_t" 2 x pre post (fun _ _ => rfl) rfl hx2.1 hx2.2
  by_cases h7 : b = "int32_t"
  · subst h7
    have hx2 : -(2 ^ 31) ≤ x ∧ x < 2 ^ 31 := by
      have he : inRangeB "int32_t" x = decide (-(2 ^ 31) ≤ x ∧ x < 2 ^ 31) := rfl
      rw [he, decide_eq_true_eq] at hx
      exact hx
    exact readVal_elem_signed "int32_t" 4 32 x pre post rfl (by norm_num)
      (fun _ _ => rfl) rfl hx2.1 hx2.2
  by_cases h8 : b = "uint32_t"
  · subst h8
    have hx2 : 0 ≤ x ∧ x < 2 ^ 32 := by
      have he : inRangeB "uint32_t" x = decide (0 ≤ x ∧ x < 2 ^ 32) := rfl
      rw [he, decide_eq_true_eq] at hx
      exact hx
    exact readVal_elem_unsigned "uint32_t" 4 x pre post (fun _ _ => rfl) rfl hx2.1 hx2.2
  exfalso
  have hnone : typeLengths b = none := by
    unfold typeLengths
    rw [if_neg h1, if_neg h2, if_neg hc, if_neg h3, if_neg h4, if_neg h4b,
      if_neg h5, if_neg h6, if_neg h7, if_neg h8, if_neg h164, if_neg hu64]
  rw [hnone] at hb
  exact Option.noConfusion hb


/-! ### Block-level codec lemmas for the round-trip claim -/

theorem mapM_congr_ok {α β : Type} (g : α → Except DecodeError β) (f : α → β) :
    ∀ l : List α, (∀ a ∈ l, g a = .ok (f a)) → l.mapM g = .ok (l.map f) := by
  intro l
  induction l with
  | nil => intro h; rfl
  | cons a t ih =>
    intro h
    rw [List.mapM_cons, h a (by simp), ih (fun b hb => h b (by simp [hb]))]
    rfl

theorem map_range_getD {α : Type} (d : α) (xs : List α) :
    (List.range xs.length).map (fun j => xs.getD j d) = xs := by
  induction xs with
  | nil => rfl
  | cons x t ih =>
    rw [List.length_cons, List.range_succ_eq_map, List.map_cons, List.map_map]
    have htail : (List.range t.length).map ((fun j => (x :: t).getD j d) ∘ (fun j => j + 1))
        = (List.range t.length).map (fun j => t.getD j d) :=
      List.map_congr_left (fun a ha => rfl)
    rw [htail, ih]
    rfl

theorem flatten_length_const {α : Type} (g : α → List Nat) (tl : Nat) :
    ∀ xs : List α, (∀ x ∈ xs, (g x).length = tl) →
      ((xs.map g).flatten).length = xs.length * tl := by
  intro xs
  induction xs with
  | nil => simp
  | cons a t ih =>
    intro h
    rw [List.map_cons, List.flatten_cons, List.length_append, h a (by simp),
      ih (fun x hx => h x (by simp [hx])), List.length_cons]
    ring

theorem flatten_map_singleton {α β : Type} (f : α → β) :
    ∀ l : List α, (l.map (fun a => [f a])).flatten = l.map f := by
  intro l
  induction l with
  | nil => rfl
  | cons a t ih =>
    rw [List.map_cons, List.flatten_cons, List.map_cons, ih]
    rfl

theorem encodeElem_char (e : MavValue) : encodeElem "char" e = [charCode e] := rfl

theorem encodeElem_length (b : String) (tl : Nat) (hb : typeLengths b = some tl)
    (h164 : b ≠ "int64_t") (hu64 : b ≠ "uint64_t") (e : MavValue) :
    (encodeElem b e).length = tl := by
  by_cases h1 : b = "float"
  · subst h1
    have htl : tl = 4 := by
      have h := hb
      rw [show typeLengths "float" = some 4 from rfl] at h
      exact (Option.some.inj h).symm
    subst htl
    show (leBytes (numOf e).toNat 4).length = 4
    exact leBytes_length _ _
  by_cases h2 : b = "double"
  · subst h2
    have htl : tl = 8 := by
      have h := hb
      rw [show typeLengths "double" = some 8 from rfl] at h
      exact (Option.some.inj h).symm
    subst htl
    show (leBytes (numOf e).toNat 8).length = 8
    exact leBytes_length _ _
  by_cases hc : b = "char"
  · subst hc
    have htl : tl = 1 := by
      have h := hb
      rw [show typeLengths "char" = some 1 from rfl] at h
      exact (Option.some.inj h).symm
    subst htl
    rfl
  by_cases h3 : b = "int8_t"
  · subst h3
    have htl : tl = 1 := by
      have h := hb
      rw [show typeLengths "int8_t" = some 1 from rfl] at h
      exact (Option.some.inj h).symm
    subst htl
    show (intLE (numOf e) 1).length = 1
    exact intLE_length _ _
  by_cases h4 : b = "uint8_t"
  · subst h4
    have htl : tl = 1 := by
      have h := hb
      rw [show typeLengths "uint8_t" = some 1 from rfl] at h
      exact (Option.some.inj h).symm
    subst htl
    show (intLE (numOf e) 1).length = 1
    exact intLE_length _ _
  by_cases h4b : b = "uint8_t_mavlink_version"
  · subst h4b
    have htl : tl = 1 := by
      have h := hb
      rw [show typeLengths "uint8_t_mavlink_version" = some 1 from rfl] at h
      exact (Option.some.inj h).symm
    subst htl
    show (intLE (numOf e) 1).length = 1
    exact intLE_length _ _
  by_cases h5 : b = "int16_t"
  · subst h5
    have htl : tl = 2 := by
      have h := hb
      rw [show typeLengths "int16_t" = some 2 from rfl] at h
      exact (Option.some.inj h).symm
    subst htl
    show (intLE (numOf e) 2).length = 2
    exact intLE_length _ _
  by_cases h6 : b = "uint16_t"
  · subst h6
    have htl : tl = 2 := by
      have h := hb
      rw [show typeLengths "uint16_t" = some 2 from rfl] at h
      exact (Option.some.inj h).symm
    subst htl
    show (intLE (numOf e) 2).length = 2
    exact intLE_length _ _
  by_cases h7 : b = "int32_t"
  · subst h7
    have htl : tl = 4 := by
      have h := hb
      rw [show typeLengths "int32_t" = some 4 from rfl] at h
      exact (Option.some.inj h).symm
    subst htl
    show (intLE (numOf e) 4).length = 4
    exact intLE_length _ _
  by_cases h8 : b = "uint32_t"
  · subst h8
    have htl : tl = 4 := by
      have h := hb
      rw [show typeLengths "uint32_t" = some 4 from rfl] at h
      exact (Option.some.inj h).symm
    subst htl
    show (intLE (numOf e) 4).length = 4
    exact intLE_length _ _
  exfalso
  have hnone : typeLengths b = none := by
    unfold typeLengths
    rw [if_neg h1, if_neg h2, if_neg hc, if_neg h3, if_neg h4, if_neg h4b,
      if_neg h5, if_neg h6, if_neg h7, if_neg h8, if_neg h164, if_neg hu64]
  rw [hnone] at hb
  exact Option.noConfusion hb

theorem flatten_blocks_read (b : String) (tl : Nat) (hb : typeLengths b = some tl)
    (h164 : b ≠ "int64_t") (hu64 : b ≠ "uint64_t") (hc : b ≠ "char") :
    ∀ (xs : List Int) (pre post : List Nat),
      (∀ x ∈ xs, inRangeB b x = true) →
      ∀ j, j < xs.length →
      readVal b (pre ++ (xs.map (fun x => encodeElem b (MavValue.n x))).flatten ++ post)
        (pre.length + j * tl) = .ok (xs.getD j 0) := by
  intro xs
  induction xs with
  | nil =>
    intro pre post hr j hj
    simp at hj
  | cons x t ih =>
    intro pre post hr j hj
    cases j with
    | zero =>
      have h0 : pre.length + 0 * tl = pre.length := by omega
      have hsplit : pre ++ ((x :: t).map (fun y => encodeElem b (MavValue.n y))).flatten ++ post
          = pre ++ encodeElem b (MavValue.n x)
            ++ ((t.map (fun y => encodeElem b (MavValue.n y))).flatten ++ post) := by
        rw [List.map_cons, List.flatten_cons]
        simp [List.append_assoc]
      rw [h0, hsplit, readVal_encodeElem b tl hb h164 hu64 hc x (hr x (by simp)) pre _]
      rfl
    | succ i =>
      have hsplit : pre ++ ((x :: t).map (fun y => encodeElem b (MavValue.n y))).flatten ++ post
          = (pre ++ encodeElem b (MavValue.n x))
            ++ (t.map (fun y => encodeElem b (MavValue.n y))).flatten ++ post := by
        rw [List.map_cons, List.flatten_cons]
        simp [List.append_assoc]
      have hoff : pre.length + (i + 1) * tl
          = (pre ++ encodeElem b (MavValue.n x)).length + i * tl := by
        rw [List.length_append, encodeElem_length b tl hb h164 hu64 (MavValue.n x)]
        ring
      rw [hsplit, hoff,
        ih (pre ++ encodeElem b (MavValue.n x)) post (fun y hy => hr y (by simp [hy])) i
          (by simpa using hj)]
      rfl

theorem char_block_read :
    ∀ (bl : List Nat) (pre post : List Nat) (j : Nat), j < bl.length →
      readVal "char" (pre ++ bl ++ post) (pre.length + j * 1) = .ok ((bl.getD j 0 : Nat) : Int) := by
  intro bl
  induction bl with
  | nil =>
    intro pre post j hj
    simp at hj
  | cons c t ih =>
    intro pre post j hj
    cases j with
    | zero =>
      have h0 : pre.length + 0 * 1 = pre.length := by omega
      have hsplit : pre ++ (c :: t) ++ post = pre ++ [c] ++ (t ++ post) := by simp
      rw [h0, hsplit, readVal_char_elem c pre (t ++ post)]
      rfl
    | succ i =>
      have hsplit : pre ++ (c :: t) ++ post = (pre ++ [c]) ++ t ++ post := by simp
      have hoff : pre.length + (i + 1) * 1 = (pre ++ [c]).length + i * 1 := by
        rw [List.length_append, List.length_singleton]
        omega
      rw [hsplit, hoff, ih (pre ++ [c]) post i (by simpa using hj)]
      rfl


/-! ### Trimming lemmas bridging `trim_buffer` and the spec trim -/

theorem trim_buffer_append_zeros (xs : List Nat) (hne : xs ≠ []) (k : Nat) :
    trim_buffer (xs ++ List.replicate k 0) = trim_buffer xs := by
  induction k with
  | zero => simp
  | succ n ih =>
    rw [List.replicate_succ',
      show xs ++ (List.replicate n 0 ++ [0]) = (xs ++ List.replicate n 0) ++ [0] from
        (List.append_assoc xs (List.replicate n 0) [0]).symm,
      trim_buffer_snoc_zero,
      if_neg (fun h => hne (List.append_eq_nil.mp h).1)]
    exact ih

theorem specTrim_snoc_nonzero (xs : List Nat) (x : Nat) (hx : x ≠ 0) :
    specTrim (xs ++ [x]) = xs ++ [x] := by
  unfold specTrim
  rw [List.reverse_append, List.reverse_singleton, List.singleton_append,
    List.dropWhile_cons, if_neg (by simpa using hx)]
  simp

theorem specTrim_snoc_zero (xs : List Nat) : specTrim (xs ++ [0]) = specTrim xs := by
  unfold specTrim
  rw [List.reverse_append, List.reverse_singleton, List.singleton_append,
    List.dropWhile_cons, if_pos (by simp)]

theorem trim_buffer_eq_specTrim (cs : List Nat) (h : cs.any (fun c => c ≠ 0) = true) :
    trim_buffer cs = specTrim cs := by
  induction cs using List.reverseRecOn with
  | nil => simp at h
  | append_singleton xs x ih =>
    by_cases hx : x = 0
    · subst hx
      have hxs : xs.any (fun c => decide (c ≠ 0)) = true := by
        rw [List.any_append] at h
        have h0 : [(0 : Nat)].any (fun c => decide (c ≠ 0)) = false := rfl
        rw [h0, Bool.or_false] at h
        exact h
      have hne : xs ≠ [] := by
        intro he
        rw [he] at hxs
        exact Bool.noConfusion hxs
      rw [trim_buffer_snoc_zero, specTrim_snoc_zero, if_neg hne]
      exact ih hxs
    · rw [trim_buffer_snoc_nonzero xs x hx, specTrim_snoc_nonzero xs x hx]

theorem trim_char_block (cs : List Nat) (k : Nat) (h : cs.any (fun c => c ≠ 0) = true) :
    trim_buffer (cs ++ List.replicate k 0) = specTrim cs := by
  have hne : cs ≠ [] := by
    intro he
    rw [he] at h
    exact Bool.noConfusion h
  rw [trim_buffer_append_zeros cs hne k, trim_buffer_eq_specTrim cs h]

/-! ### Field-block shape lemmas -/

theorem fieldWF_spec (f : PField) (h : fieldWF f = true) :
    typeLengths (baseOf f) = some f.typeLength ∧ f.length = f.typeLength * f.arrayLength ∧
    baseOf f ≠ "int64_t" ∧ baseOf f ≠ "uint64_t" ∧
    (isArrF f = true ∨ (f.arrayLength = 1 ∧ baseOf f ≠ "char")) := by
  unfold fieldWF at h
  simp only [Bool.and_eq_true, Bool.or_eq_true, beq_iff_eq, Bool.not_eq_true',
    beq_eq_false_iff_ne, ne_eq] at h
  obtain ⟨⟨⟨⟨h1, h2⟩, h3⟩, h4⟩, h5⟩ := h
  refine ⟨h1, h2, h3, h4, ?_⟩
  rcases h5 with h5 | ⟨h5a, h5b⟩
  · exact Or.inl h5
  · exact Or.inr ⟨h5a, h5b⟩

theorem bufferFieldBytes_scalar (f : PField) (x : Int)
    (hsplit1 : (splitType f.typ).length = 1)
    (henc : (encodeElem (baseOf f) (MavValue.n x)).length = f.typeLength)
    (hflen : f.length = f.typeLength * f.arrayLength) (ha1 : f.arrayLength = 1) :
    bufferFieldBytes f (MavValue.n x) = encodeElem (baseOf f) (MavValue.n x) := by
  unfold baseOf at henc
  unfold bufferFieldBytes fieldElems baseOf
  rw [if_pos hsplit1]
  simp only [List.map_cons, List.map_nil, List.flatten_cons, List.flatten_nil,
    List.append_nil]
  rw [hflen, ha1, Nat.mul_one, henc, Nat.sub_self]
  simp

theorem bufferFieldBytes_arrN (f : PField) (xs : List Int)
    (harr : 1 < (splitType f.typ).length)
    (henc : ∀ y : Int, (encodeElem (baseOf f) (MavValue.n y)).length = f.typeLength)
    (hflen : f.length = f.typeLength * f.arrayLength) (hxs : xs.length = f.arrayLength) :
    bufferFieldBytes f (MavValue.arrN xs)
      = (xs.map (fun y => encodeElem (baseOf f) (MavValue.n y))).flatten := by
  unfold baseOf at henc
  unfold bufferFieldBytes fieldElems baseOf
  rw [if_neg (by omega)]
  simp only [List.map_map]
  have hwlen : ((xs.map (encodeElem ((splitType f.typ).headD "") ∘ MavValue.n)).flatten).length
      = xs.length * f.typeLength :=
    flatten_length_const (encodeElem ((splitType f.typ).headD "") ∘ MavValue.n)
      f.typeLength xs (fun y hy => henc y)
  rw [hwlen, hxs, hflen, Nat.mul_comm f.typeLength f.arrayLength, Nat.sub_self]
  simp
  rfl

theorem bufferFieldBytes_char (f : PField) (cs : List Nat)
    (harr : 1 < (splitType f.typ).length) (hbase : baseOf f = "char")
    (htl : f.typeLength = 1)
    (hflen : f.length = f.typeLength * f.arrayLength) :
    bufferFieldBytes f (MavValue.s cs)
      = cs ++ List.replicate (f.arrayLength - cs.length) 0 := by
  unfold baseOf at hbase
  unfold bufferFieldBytes fieldElems
  rw [if_neg (by omega), hbase]
  have hw : ((cs.map (fun c => MavValue.s [c])).map (encodeElem "char")).flatten = cs := by
    rw [List.map_map]
    have hpt : cs.map (encodeElem "char" ∘ fun c => MavValue.s [c]) = cs.map (fun c => [c]) :=
      List.map_congr_left (fun c hc => rfl)
    rw [hpt]
    have h2 := flatten_map_singleton (fun c : Nat => c) cs
    simpa using h2
  rw [hw, hflen, htl, Nat.one_mul]

/-! ### One decode step and the full payload round trip -/

theorem decodeFields_cons (payload : List Nat) (off : Nat) (f : PField) (rest : List PField)
    (vals : List Int)
    (h1 : (List.range f.arrayLength).mapM
      (fun j => readVal (baseOf f) payload (off + j * f.typeLength)) = .ok vals)
    (res : List (String × MavValue))
    (h2 : decodeFields payload (off + f.arrayLength * f.typeLength) rest = .ok res) :
    decodeFields payload off (f :: rest)
      = .ok ((f.name,
          if isArrF f then
            if baseOf f = "char" then MavValue.s (trim_buffer (vals.map Int.toNat))
            else MavValue.arrN vals
          else MavValue.n (vals.getLastD 0)) :: res) := by
  unfold decodeFields
  rw [h1, h2]
  rfl

theorem decodeField_step (f : PField) (v : MavValue) (hwf : fieldWF f = true)
    (hv : validValue f v = true) (pre post : List Nat) :
    (bufferFieldBytes f v).length = f.length ∧
    ∃ vals : List Int,
      ((List.range f.arrayLength).mapM
        (fun j => readVal (baseOf f) (pre ++ bufferFieldBytes f v ++ post)
          (pre.length + j * f.typeLength))) = .ok vals ∧
      (if isArrF f then
        if baseOf f = "char" then MavValue.s (trim_buffer (vals.map Int.toNat))
        else MavValue.arrN vals
       else MavValue.n (vals.getLastD 0)) = normalizeValue f v := by
  obtain ⟨hbt, hflen, h164, hu64, hkind⟩ := fieldWF_spec f hwf
  by_cases harr : isArrF f = true
  · have harr2 : 1 < (splitType f.typ).length := by
      have h := harr
      unfold isArrF at h
      exact of_decide_eq_true h
    by_cases hchar : baseOf f = "char"
    · unfold validValue at hv
      rw [if_pos harr, if_pos hchar] at hv
      cases v with
      | n y => exact Bool.noConfusion hv
      | arrN ys => exact Bool.noConfusion hv
      | s cs =>
        simp only [Bool.and_eq_true, decide_eq_true_eq, List.all_eq_true,
          List.any_eq_true] at hv
        obtain ⟨⟨hlen, hall⟩, hany⟩ := hv
        have htl : f.typeLength = 1 := by
          rw [hchar, show typeLengths "char" = some 1 from rfl] at hbt
          exact (Option.some.inj hbt).symm
        have hblock := bufferFieldBytes_char f cs harr2 hchar htl hflen
        have hblen2 : (bufferFieldBytes f (MavValue.s cs)).length = f.length := by
          rw [hblock, List.length_append, List.length_replicate, hflen, htl, Nat.one_mul]
          omega
        refine ⟨hblen2, ?_⟩
        have hblocklen : (cs ++ List.replicate (f.arrayLength - cs.length) 0).length
            = f.arrayLength := by
          rw [List.length_append, List.length_replicate]
          omega
        refine ⟨(List.range f.arrayLength).map
          (fun j => (((cs ++ List.replicate (f.arrayLength - cs.length) 0).getD j 0 : Nat) : Int)),
          ?_, ?_⟩
        · rw [hchar, htl, hblock]
          refine mapM_congr_ok _ _ _ (fun j hj => ?_)
          exact char_block_read (cs ++ List.replicate (f.arrayLength - cs.length) 0) pre post j
            (by rw [hblocklen]; simpa using hj)
        · rw [if_pos harr, if_pos hchar]
          have hmap : ((List.range f.arrayLength).map
              (fun j => (((cs ++ List.replicate (f.arrayLength - cs.length) 0).getD j 0 : Nat) : Int))).map
                Int.toNat
              = cs ++ List.replicate (f.arrayLength - cs.length) 0 := by
            rw [List.map_map]
            have hpt : (List.range f.arrayLength).map
                (Int.toNat ∘ fun j =>
                  (((cs ++ List.replicate (f.arrayLength - cs.length) 0).getD j 0 : Nat) : Int))
                = (List.range f.arrayLength).map
                  (fun j => (cs ++ List.replicate (f.arrayLength - cs.length) 0).getD j 0) :=
              List.map_congr_left (fun a ha => Int.toNat_natCast _)
            rw [hpt]
            have hm2 := map_range_getD 0 (cs ++ List.replicate (f.arrayLength - cs.length) 0)
            rw [hblocklen] at hm2
            exact hm2
          rw [hmap, trim_char_block cs (f.arrayLength - cs.length)
            (by
              rw [List.any_eq_true]
              obtain ⟨c, hc1, hc2⟩ := hany
              exact ⟨c, hc1, by simpa using hc2⟩)]
          unfold normalizeValue
          rw [if_pos ⟨harr, hchar⟩]
    · unfold validValue at hv
      rw [if_pos harr, if_neg hchar] at hv
      cases v with
      | n y => exact Bool.noConfusion hv
      | s cs => exact Bool.noConfusion hv
      | arrN xs =>
        simp only [Bool.and_eq_true, decide_eq_true_eq, List.all_eq_true] at hv
        obtain ⟨hxslen, hall⟩ := hv
        have henc : ∀ y : Int, (encodeElem (baseOf f) (MavValue.n y)).length = f.typeLength :=
          fun y => encodeElem_length (baseOf f) f.typeLength hbt h164 hu64 (MavValue.n y)
        have hblock := bufferFieldBytes_arrN f xs harr2 henc hflen hxslen
        have hblen2 : (bufferFieldBytes f (MavValue.arrN xs)).length = f.length := by
          rw [hblock, flatten_length_const _ f.typeLength xs (fun y hy => henc y), hxslen,
            hflen, Nat.mul_comm]
        refine ⟨hblen2, xs, ?_, ?_⟩
        · rw [hblock]
          have hm := mapM_congr_ok
            (fun j => readVal (baseOf f)
              (pre ++ (xs.map (fun y => encodeElem (baseOf f) (MavValue.n y))).flatten ++ post)
              (pre.length + j * f.typeLength))
            (fun j => xs.getD j 0) (List.range f.arrayLength)
            (fun j hj => flatten_blocks_read (baseOf f) f.typeLength hbt h164 hu64 hchar
              xs pre post hall j (by rw [hxslen]; simpa using hj))
          rw [hm, ← hxslen, map_range_getD]
        · rw [if_pos harr, if_neg hchar]
          unfold normalizeValue
          rw [if_neg (fun hcon => hchar hcon.2)]
  · rcases hkind with hk | ⟨ha1, hnchar⟩
    · exact absurd hk harr
    unfold validValue at hv
    rw [if_neg harr] at hv
    cases v with
    | s cs => exact Bool.noConfusion hv
    | arrN ys => exact Bool.noConfusion hv
    | n x =>
      have hsplit1 : (splitType f.typ).length = 1 := by
        have hpos : 0 < (splitType f.typ).length :=
          List.length_pos.mpr (splitType_ne_nil f.typ)
        have hle : ¬ 1 < (splitType f.typ).length := by
          intro hlt
          exact harr (by unfold isArrF; exact decide_eq_true hlt)
        omega
      have henc : (encodeElem (baseOf f) (MavValue.n x)).length = f.typeLength :=
        encodeElem_length (baseOf f) f.typeLength hbt h164 hu64 (MavValue.n x)
      have hblock := bufferFieldBytes_scalar f x hsplit1 henc hflen ha1
      have hblen2 : (bufferFieldBytes f (MavValue.n x)).length = f.length := by
        rw [hblock, henc, hflen, ha1, Nat.mul_one]
      refine ⟨hblen2, [x], ?_, ?_⟩
      · rw [ha1]
        refine mapM_congr_ok _ (fun j => x) (List.range 1) (fun j hj => ?_)
        have hj0 : j = 0 := by
          simp only [List.mem_range] at hj
          omega
        subst hj0
        rw [show pre.length + 0 * f.typeLength = pre.length from by omega, hblock]
        exact readVal_encodeElem (baseOf f) f.typeLength hbt h164 hu64 hnchar x hv pre post
      · rw [if_neg harr]
        unfold normalizeValue
        rw [if_neg (fun hcon => harr hcon.1)]
        rfl

theorem decodeFields_roundtrip (data : List (String × MavValue)) :
    ∀ (fs : List PField) (pre post : List Nat),
      (∀ f ∈ fs, fieldWF f = true) →
      (∀ f ∈ fs, ∃ v, data.lookup f.name = some v ∧ validValue f v = true) →
      decodeFields
        (pre ++ (fs.map (fun g => bufferFieldBytes g ((data.lookup g.name).getD (MavValue.n 0)))).flatten ++ post)
        pre.length fs
      = .ok (fs.map (fun g => (g.name, normalizeValue g ((data.lookup g.name).getD (MavValue.n 0))))) := by
  intro fs
  induction fs with
  | nil =>
    intro pre post hwf hvd
    rfl
  | cons f rest ih =>
    intro pre post hwf hvd
    obtain ⟨v, hvl, hvv⟩ := hvd f (by simp)
    have hgd : (data.lookup f.name).getD (MavValue.n 0) = v := by rw [hvl]; rfl
    obtain ⟨hblen, vals, hmapM, hval⟩ := decodeField_step f v (hwf f (by simp)) hvv pre
      ((rest.map (fun g => bufferFieldBytes g ((data.lookup g.name).getD (MavValue.n 0)))).flatten ++ post)
    have hassoc : pre ++ ((f :: rest).map
          (fun g => bufferFieldBytes g ((data.lookup g.name).getD (MavValue.n 0)))).flatten ++ post
        = pre ++ bufferFieldBytes f ((data.lookup f.name).getD (MavValue.n 0))
          ++ ((rest.map (fun g => bufferFieldBytes g ((data.lookup g.name).getD (MavValue.n 0)))).flatten ++ post) := by
      rw [List.map_cons, List.flatten_cons]
      simp [List.append_assoc]
    have hoff2 : (pre ++ bufferFieldBytes f v).length
        = pre.length + f.arrayLength * f.typeLength := by
      rw [List.length_append, hblen, (fieldWF_spec f (hwf f (by simp))).2.1, Nat.mul_comm]
    have h2 := ih (pre ++ bufferFieldBytes f v) post
      (fun g hg => hwf g (by simp [hg])) (fun g hg => hvd g (by simp [hg]))
    rw [hoff2, List.append_assoc] at h2
    rw [hassoc, hgd, List.map_cons, hgd]
    rw [decodeFields_cons _ pre.length f rest vals hmapM _ h2, hval]


/-! ### Parser-run lemmas: accumulating a whole frame byte by byte -/

theorem writeAll_cons_shift : ∀ (bs : List Nat) (a : Nat) (buf : List Nat) (i : Nat),
    writeAll (a :: buf) (i + 1) bs = a :: writeAll buf i bs := by
  intro bs
  induction bs with
  | nil =>
    intro a buf i
    rfl
  | cons b t ih =>
    intro a buf i
    show writeAll ((a :: buf).set (i + 1) b) (i + 2) t = a :: writeAll (buf.set i b) (i + 1) t
    rw [show (a :: buf).set (i + 1) b = a :: buf.set i b from rfl]
    exact ih a (buf.set i b) (i + 1)

theorem writeAll_two (a b : Nat) (buf : List Nat) (bs : List Nat) :
    writeAll (a :: b :: buf) 2 bs = a :: b :: writeAll buf 0 bs := by
  have h1 := writeAll_cons_shift bs a (b :: buf) 1
  have h2 := writeAll_cons_shift bs b buf 0
  rw [show (2 : Nat) = 1 + 1 from rfl, h1, h2]

theorem writeAll_replicate : ∀ (bs : List Nat) (n : Nat), bs.length ≤ n →
    writeAll (List.replicate n 0) 0 bs = bs ++ List.replicate (n - bs.length) 0 := by
  intro bs
  induction bs with
  | nil =>
    intro n h
    show List.replicate n 0 = [] ++ List.replicate (n - 0) 0
    rfl
  | cons b t ih =>
    intro n h
    have hlen : (b :: t).length = t.length + 1 := rfl
    obtain ⟨m, rfl⟩ : ∃ m, n = m + 1 := ⟨n - 1, by omega⟩
    rw [List.replicate_succ]
    show writeAll ((0 :: List.replicate m 0).set 0 b) 1 t
      = (b :: t) ++ List.replicate (m + 1 - (b :: t).length) 0
    rw [show (0 :: List.replicate m 0).set 0 b = b :: List.replicate m 0 from rfl,
      show (1 : Nat) = 0 + 1 from rfl,
      writeAll_cons_shift t b (List.replicate m 0) 0,
      ih m (by omega), hlen,
      show m + 1 - (t.length + 1) = m - t.length from by omega]
    rfl

theorem parseBytes_cons (st : Mav) (ch : Nat) (rest : List Nat) :
    parseBytes st (ch :: rest)
      = (if (parseChar st ch).2.2 then parseChar st ch
         else ((parseBytes (parseChar st ch).1 rest).1,
           (parseChar st ch).2.1 ++ (parseBytes (parseChar st ch).1 rest).2.1,
           (parseBytes (parseChar st ch).1 rest).2.2)) := rfl

theorem parseBytes_run : ∀ (body : List Nat) (st : Mav), body ≠ [] →
    2 ≤ st.bufferIndex → st.bufferIndex + body.length = st.messageLength + 8 →
    parseBytes st body
      = checkFrame {st with
          buffer := writeAll st.buffer st.bufferIndex body,
          bufferIndex := st.messageLength + 8} := by
  intro body
  induction body with
  | nil =>
    intro st hne
    exact absurd rfl hne
  | cons b t ih =>
    intro st hne h2 hsum
    cases t with
    | nil =>
      have hsum1 : st.bufferIndex + 1 = st.messageLength + 8 := by
        have hl : ([b] : List Nat).length = 1 := rfl
        omega
      have hpc : parseChar st b
          = checkFrame {st with
              buffer := writeAll st.buffer st.bufferIndex [b],
              bufferIndex := st.messageLength + 8} := by
        unfold parseChar
        rw [if_neg (fun hcon => absurd hcon.1 (by omega)), if_neg (by omega),
          if_pos ⟨by omega, by omega⟩, if_pos hsum1, hsum1]
        rfl
      rw [parseBytes_cons, hpc]
      by_cases hcf : (checkFrame {st with
          buffer := writeAll st.buffer st.bufferIndex [b],
          bufferIndex := st.messageLength + 8}).2.2 = true
      · rw [if_pos hcf]
      · rw [if_neg hcf]
        rw [Bool.not_eq_true] at hcf
        simp only [parseBytes, List.append_nil]
        rw [← hcf]
    | cons c rest =>
      have hlen2 : (b :: c :: rest).length = (c :: rest).length + 1 := rfl
      have hlen3 : (c :: rest).length = rest.length + 1 := rfl
      have hlt : st.bufferIndex + 1 < st.messageLength + 8 := by omega
      have hpc : parseChar st b
          = ({st with
              buffer := st.buffer.set st.bufferIndex b,
              bufferIndex := st.bufferIndex + 1}, [], false) := by
        unfold parseChar
        rw [if_neg (fun hcon => absurd hcon.1 (by omega)), if_neg (by omega),
          if_pos ⟨by omega, by omega⟩, if_neg (by omega)]
      rw [parseBytes_cons, hpc, if_neg (fun hcon => Bool.noConfusion hcon)]
      have hih := ih {st with
          buffer := st.buffer.set st.bufferIndex b,
          bufferIndex := st.bufferIndex + 1} (by simp)
        (by dsimp only; omega) (by dsimp only; omega)
      dsimp only at hih ⊢
      rw [hih, List.nil_append]
      rfl

/-! ### The parser on one complete v1.0 frame from an idle state -/

theorem parseBytes_whole_frame (st : Mav) (len b2 b3 b4 b5 : Nat) (P L : List Nat)
    (hidx : st.bufferIndex = 0)
    (hbuf : st.buffer = List.replicate 512 0)
    (hP : P.length = len) (hL : L.length = 2) (hlen : len ≤ 255) :
    parseBytes st ([0xFE, len, b2, b3, b4, b5] ++ (P ++ L))
      = checkFrame {st with
          buffer := ([0xFE, len, b2, b3, b4, b5] ++ (P ++ L)) ++ List.replicate (504 - len) 0,
          bufferIndex := len + 8, messageLength := len} := by
  have hwa : writeAll (((List.replicate 512 0).set 0 0xFE).set 1 len) 2
        ([b2, b3, b4, b5] ++ (P ++ L))
      = ([0xFE, len, b2, b3, b4, b5] ++ (P ++ L)) ++ List.replicate (504 - len) 0 := by
    rw [show ((List.replicate 512 (0 : Nat)).set 0 0xFE).set 1 len
        = 0xFE :: len :: List.replicate 510 0 from rfl,
      writeAll_two, writeAll_replicate _ 510 (by simp [hP, hL]; omega),
      show ([b2, b3, b4, b5] ++ (P ++ L)).length = len + 6 from by simp [hP, hL]; try omega,
      show 510 - (len + 6) = 504 - len from by omega]
    rfl
  show parseBytes st (0xFE :: len :: ([b2, b3, b4, b5] ++ (P ++ L))) = _
  have hpc1 : parseChar st 0xFE
      = ({st with buffer := st.buffer.set 0 0xFE, bufferIndex := 1}, [], false) := by
    unfold parseChar
    rw [if_pos ⟨hidx, rfl⟩]
  rw [parseBytes_cons, hpc1, if_neg (fun hcon => Bool.noConfusion hcon)]
  dsimp only
  have hpc2 : parseChar {st with buffer := st.buffer.set 0 0xFE, bufferIndex := 1} len
      = ({st with
          buffer := (st.buffer.set 0 0xFE).set 1 len,
          messageLength := len,
          bufferIndex := 2}, [], false) := by
    unfold parseChar
    rw [if_neg (fun hcon => Nat.noConfusion hcon.1), if_pos rfl]
  rw [parseBytes_cons, hpc2, if_neg (fun hcon => Bool.noConfusion hcon)]
  dsimp only
  have hrun := parseBytes_run ([b2, b3, b4, b5] ++ (P ++ L))
    {st with
      buffer := (st.buffer.set 0 0xFE).set 1 len,
      messageLength := len,
      bufferIndex := 2} (by simp) (by dsimp only; omega)
    (by dsimp only; simp [hP, hL]; omega)
  dsimp only at hrun
  rw [hrun, hbuf, hwa, List.nil_append, List.nil_append]

/-! ### Structure of a built frame -/

theorem mkMessage_id (b1 b2 b3 b4 b5 : Nat) (P rest : List Nat) :
    (mkMessage ([0xFE, b1, b2, b3, b4, b5] ++ (P ++ rest))).id = b5 := rfl

theorem mkMessage_payload (b1 b2 b3 b4 b5 : Nat) (P rest : List Nat) (hP : P.length = b1) :
    (mkMessage ([0xFE, b1, b2, b3, b4, b5] ++ (P ++ rest))).payload = P := by
  show ((([0xFE, b1, b2, b3, b4, b5] ++ (P ++ rest)).drop 6).take
    (([0xFE, b1, b2, b3, b4, b5] ++ (P ++ rest)).getD 1 0)) = P
  rw [show ([0xFE, b1, b2, b3, b4, b5] ++ (P ++ rest)).drop 6 = P ++ rest from rfl,
    show ([0xFE, b1, b2, b3, b4, b5] ++ (P ++ rest)).getD 1 0 = b1 from rfl,
    ← hP, List.take_left]

theorem mkMessage_buffer_full (b1 b2 b3 b4 b5 : Nat) (P L : List Nat)
    (hP : P.length = b1) (hL : L.length = 2) :
    (mkMessage ([0xFE, b1, b2, b3, b4, b5] ++ (P ++ L))).buffer
      = [0xFE, b1, b2, b3, b4, b5] ++ (P ++ L) := by
  show ([0xFE, b1, b2, b3, b4, b5] ++ (P ++ L)).take
    (([0xFE, b1, b2, b3, b4, b5] ++ (P ++ L)).getD 1 0 + 8) = _
  rw [show ([0xFE, b1, b2, b3, b4, b5] ++ (P ++ L)).getD 1 0 = b1 from rfl]
  have hlen : ([0xFE, b1, b2, b3, b4, b5] ++ (P ++ L)).length = b1 + 8 := by
    simp [hP, hL]
  rw [← hlen, List.take_length]

theorem payload_length_blocks (data : List (String × MavValue)) :
    ∀ fs : List PField,
      (∀ f ∈ fs, fieldWF f = true) →
      (∀ f ∈ fs, ∃ v, data.lookup f.name = some v ∧ validValue f v = true) →
      ((fs.map (fun g => bufferFieldBytes g ((data.lookup g.name).getD (MavValue.n 0)))).flatten).length
        = (fs.map (fun g => g.length)).sum := by
  intro fs
  induction fs with
  | nil =>
    intro hwf hvd
    rfl
  | cons f rest ih =>
    intro hwf hvd
    obtain ⟨v, hvl, hvv⟩ := hvd f (by simp)
    have hgd : (data.lookup f.name).getD (MavValue.n 0) = v := by rw [hvl]; rfl
    rw [List.map_cons, List.flatten_cons, List.length_append, List.map_cons, List.sum_cons,
      ih (fun g hg => hwf g (by simp [hg])) (fun g hg => hvd g (by simp [hg])),
      hgd, (decodeField_step f v (hwf f (by simp)) hvv [] []).1]

theorem checkFrame_ok_events (s : Mav) (flds : List (String × MavValue))
    (hcrc : calculateChecksum (crcBufOf s) = receivedOf s)
    (hgate : originGate s (mkMessage s.buffer))
    (hdec : decodeMessage s.catalog (mkMessage s.buffer) = .ok flds) :
    (checkFrame s).2.1 = seqEvents s ++
      [Event.message (getMessageName s.catalog (s.buffer.getD 5 0)) (mkMessage s.buffer) flds,
       Event.named (getMessageName s.catalog (s.buffer.getD 5 0)) (mkMessage s.buffer) flds] := by
  unfold checkFrame
  rw [if_pos hcrc, if_pos hgate, hdec]

theorem getMessageName_of_byID (cat : List PMsg) (m : PMsg)
    (h : byID cat (m.id : Int) = some m) : getMessageName cat m.id = m.name := by
  unfold getMessageName
  rw [h]


/-! ### Checksum slices of an accumulated frame buffer -/

theorem crcBufOf_frame (st2 : Mav) (len b2 b3 b4 b5 : Nat) (P R : List Nat)
    (hP : P.length = len) :
    crcBufOf {st2 with
        buffer := [0xFE, len, b2, b3, b4, b5] ++ (P ++ R),
        bufferIndex := len + 8, messageLength := len}
      = ([len, b2, b3, b4, b5] ++ P) ++ [seedOf st2.catalog b5] := by
  unfold crcBufOf
  dsimp only
  rw [show ([0xFE, len, b2, b3, b4, b5] ++ (P ++ R)).drop 1
      = ([len, b2, b3, b4, b5] ++ P) ++ R from by simp,
    show ([0xFE, len, b2, b3, b4, b5] ++ (P ++ R)).getD 5 0 = b5 from rfl,
    List.take_left' (show ([len, b2, b3, b4, b5] ++ P).length = len + 5 from by
      simp [hP]
      try omega)]

theorem receivedOf_frame (st2 : Mav) (len b2 b3 b4 b5 : Nat) (P L Z : List Nat)
    (hP : P.length = len) (hL : L.length = 2) :
    receivedOf {st2 with
        buffer := [0xFE, len, b2, b3, b4, b5] ++ (P ++ (L ++ Z)),
        bufferIndex := len + 8, messageLength := len}
      = fromLE L := by
  unfold receivedOf
  dsimp only
  rw [show [0xFE, len, b2, b3, b4, b5] ++ (P ++ (L ++ Z))
      = ([0xFE, len, b2, b3, b4, b5] ++ P) ++ (L ++ Z) from by simp,
    List.drop_left' (show ([0xFE, len, b2, b3, b4, b5] ++ P).length = len + 6 from by
      simp [hP]
      try omega),
    List.take_left' hL]

/-! ### A checksummed frame fed to an idle promiscuous parser is delivered -/

theorem frame_parse_delivers (st2 : Mav) (m : PMsg) (len b2 b3 b4 : Nat) (P : List Nat)
    (norm : List (String × MavValue))
    (hidcat2 : byID st2.catalog (m.id : Int) = some m)
    (hP : P.length = len) (hlen : len ≤ 255)
    (hidx : st2.bufferIndex = 0) (hbuf : st2.buffer = List.replicate 512 0)
    (hsys0 : st2.sysid = 0) (hcomp0 : st2.compid = 0)
    (hdecP : decodeFields P 0 m.field = .ok norm) :
    ∃ im, Event.message m.name im norm
      ∈ (parseBytes st2 ([0xFE, len, b2, b3, b4, m.id]
          ++ (P ++ leBytes (calculateChecksum (([len, b2, b3, b4, m.id] ++ P)
              ++ [seedOf st2.catalog m.id])) 2))).2.1 := by
  have hL2 : (leBytes (calculateChecksum (([len, b2, b3, b4, m.id] ++ P)
      ++ [seedOf st2.catalog m.id])) 2).length = 2 := leBytes_length _ _
  rw [parseBytes_whole_frame st2 len b2 b3 b4 m.id P _ hidx hbuf hP hL2 hlen,
    show ([0xFE, len, b2, b3, b4, m.id]
        ++ (P ++ leBytes (calculateChecksum (([len, b2, b3, b4, m.id] ++ P)
            ++ [seedOf st2.catalog m.id])) 2)) ++ List.replicate (504 - len) 0
      = [0xFE, len, b2, b3, b4, m.id]
        ++ (P ++ (leBytes (calculateChecksum (([len, b2, b3, b4, m.id] ++ P)
            ++ [seedOf st2.catalog m.id])) 2 ++ List.replicate (504 - len) 0)) from by simp]
  have hcrceq : calculateChecksum (crcBufOf {st2 with
        buffer := [0xFE, len, b2, b3, b4, m.id]
          ++ (P ++ (leBytes (calculateChecksum (([len, b2, b3, b4, m.id] ++ P)
              ++ [seedOf st2.catalog m.id])) 2 ++ List.replicate (504 - len) 0)),
        bufferIndex := len + 8, messageLength := len})
      = receivedOf {st2 with
        buffer := [0xFE, len, b2, b3, b4, m.id]
          ++ (P ++ (leBytes (calculateChecksum (([len, b2, b3, b4, m.id] ++ P)
              ++ [seedOf st2.catalog m.id])) 2 ++ List.replicate (504 - len) 0)),
        bufferIndex := len + 8, messageLength := len} := by
    rw [crcBufOf_frame st2 len b2 b3 b4 m.id P _ hP,
      receivedOf_frame st2 len b2 b3 b4 m.id P _ _ hP hL2, fromLE_leBytes]
    exact (Nat.mod_eq_of_lt (calculateChecksum_lt _)).symm
  have hgate : originGate {st2 with
        buffer := [0xFE, len, b2, b3, b4, m.id]
          ++ (P ++ (leBytes (calculateChecksum (([len, b2, b3, b4, m.id] ++ P)
              ++ [seedOf st2.catalog m.id])) 2 ++ List.replicate (504 - len) 0)),
        bufferIndex := len + 8, messageLength := len}
      (mkMessage ({st2 with
        buffer := [0xFE, len, b2, b3, b4, m.id]
          ++ (P ++ (leBytes (calculateChecksum (([len, b2, b3, b4, m.id] ++ P)
              ++ [seedOf st2.catalog m.id])) 2 ++ List.replicate (504 - len) 0)),
        bufferIndex := len + 8, messageLength := len} : Mav).buffer) :=
    Or.inl ⟨hsys0, hcomp0⟩
  have hdec : decodeMessage ({st2 with
        buffer := [0xFE, len, b2, b3, b4, m.id]
          ++ (P ++ (leBytes (calculateChecksum (([len, b2, b3, b4, m.id] ++ P)
              ++ [seedOf st2.catalog m.id])) 2 ++ List.replicate (504 - len) 0)),
        bufferIndex := len + 8, messageLength := len} : Mav).catalog
      (mkMessage ({st2 with
        buffer := [0xFE, len, b2, b3, b4, m.id]
          ++ (P ++ (leBytes (calculateChecksum (([len, b2, b3, b4, m.id] ++ P)
              ++ [seedOf st2.catalog m.id])) 2 ++ List.replicate (504 - len) 0)),
        bufferIndex := len + 8, messageLength := len} : Mav).buffer)
      = .ok norm := by
    show decodeMessage st2.catalog (mkMessage ([0xFE, len, b2, b3, b4, m.id]
      ++ (P ++ (leBytes (calculateChecksum (([len, b2, b3, b4, m.id] ++ P)
          ++ [seedOf st2.catalog m.id])) 2 ++ List.replicate (504 - len) 0)))) = .ok norm
    unfold decodeMessage
    simp only [show byID st2.catalog (((mkMessage ([0xFE, len, b2, b3, b4, m.id]
        ++ (P ++ (leBytes (calculateChecksum (([len, b2, b3, b4, m.id] ++ P)
            ++ [seedOf st2.catalog m.id])) 2 ++ List.replicate (504 - len) 0)))).id : Nat) : Int)
        = some m from hidcat2]
    rw [mkMessage_payload len b2 b3 b4 m.id P _ hP]
    exact hdecP
  refine ⟨mkMessage ({st2 with
      buffer := [0xFE, len, b2, b3, b4, m.id]
        ++ (P ++ (leBytes (calculateChecksum (([len, b2, b3, b4, m.id] ++ P)
            ++ [seedOf st2.catalog m.id])) 2 ++ List.replicate (504 - len) 0)),
      bufferIndex := len + 8, messageLength := len} : Mav).buffer, ?_⟩
  rw [checkFrame_ok_events _ norm hcrceq hgate hdec,
    show getMessageName ({st2 with
        buffer := [0xFE, len, b2, b3, b4, m.id]
          ++ (P ++ (leBytes (calculateChecksum (([len, b2, b3, b4, m.id] ++ P)
              ++ [seedOf st2.catalog m.id])) 2 ++ List.replicate (504 - len) 0)),
        bufferIndex := len + 8, messageLength := len} : Mav).catalog
        (({st2 with
        buffer := [0xFE, len, b2, b3, b4, m.id]
          ++ (P ++ (leBytes (calculateChecksum (([len, b2, b3, b4, m.id] ++ P)
              ++ [seedOf st2.catalog m.id])) 2 ++ List.replicate (504 - len) 0)),
        bufferIndex := len + 8, messageLength := len} : Mav).buffer.getD 5 0)
      = m.name from getMessageName_of_byID st2.catalog m hidcat2]
  exact List.mem_append_right _ (by simp)


/-- C1 (amended): the round trip holds for every catalog message whose
fields are well formed (supported non-64-bit base types with consistent
sizes) and every valid data map — in-range scalars, arrays of exactly
`arrayLength` in-range elements, and char strings that are ASCII, fit the
declared length and contain at least one nonzero character (the amendment:
the source's `trim_buffer` maps an all-zero char field to the one-byte NUL
string, not the empty string, so such values do not round-trip).  The
frame `createMessage` delivers decodes — directly and through the byte
parser from an idle promiscuous codec — to exactly the supplied map with
char fields trimmed of trailing zeros. -/
theorem decodeMessage_of_byID (cat : List PMsg) (msg : IMessage) (m : PMsg)
    (h : byID cat ((msg.id : Nat) : Int) = some m) :
    decodeMessage cat msg = decodeFields msg.payload 0 m.field := by
  unfold decodeMessage
  rw [h]

theorem C1_roundtrip (st st2 : Mav) (mid : MsgRef) (data : List (String × MavValue)) (m : PMsg)
    (hid : byID st.catalog (refId st.catalog mid) = some m)
    (hidcat : byID st.catalog (m.id : Int) = some m)
    (hidlt : m.id < 256)
    (hwf : ∀ f ∈ m.field, fieldWF f = true)
    (hvd : validData m data = true)
    (hplen : m.payloadLength = (m.field.map (fun g => g.length)).sum)
    (hplen255 : m.payloadLength < 256)
    (hst2cat : st2.catalog = st.catalog)
    (hst2idx : st2.bufferIndex = 0)
    (hst2buf : st2.buffer = List.replicate 512 0)
    (hsys0 : st2.sysid = 0) (hcomp0 : st2.compid = 0) :
    ∃ msg, (createMessage st mid data).2 = some msg ∧
      decodeMessage st.catalog msg
        = .ok (m.field.map (fun g =>
            (g.name, normalizeValue g ((data.lookup g.name).getD (MavValue.n 0))))) ∧
      ∃ im, Event.message m.name im
          (m.field.map (fun g =>
            (g.name, normalizeValue g ((data.lookup g.name).getD (MavValue.n 0)))))
        ∈ (parseBytes st2 msg.buffer).2.1 := by
  have hvdE : ∀ f ∈ m.field, ∃ v, data.lookup f.name = some v ∧ validValue f v = true := by
    intro f hf
    have h := (List.all_eq_true.mp (by unfold validData at hvd; exact hvd)) f hf
    cases hl : data.lookup f.name with
    | none =>
      rw [hl] at h
      exact Bool.noConfusion h
    | some v =>
      rw [hl] at h
      exact ⟨v, rfl, h⟩
  have hdata2 : m.field.all (fun f => (data.lookup f.name).isSome) = true := by
    rw [List.all_eq_true]
    intro f hf
    obtain ⟨v, hvl, _⟩ := hvdE f hf
    rw [hvl]
    rfl
  have hPlen : ((m.field.map (fun g =>
      bufferFieldBytes g ((data.lookup g.name).getD (MavValue.n 0)))).flatten).length
      = m.payloadLength := by
    rw [payload_length_blocks data m.field hwf hvdE, ← hplen]
  have hb1 : m.payloadLength % 256 = m.payloadLength := Nat.mod_eq_of_lt hplen255
  have hb5 : m.id % 256 = m.id := Nat.mod_eq_of_lt hidlt
  have heq : createMessage st mid data
      = ({st with sequence := if st.sequence = 255 then 0 else st.sequence + 1},
         some (mkMessage ([0xFE, m.payloadLength % 256,
            (if st.sequence = 255 then 0 else st.sequence + 1) % 256,
            st.sysid % 256, st.compid % 256, m.id % 256]
          ++ (((m.field.map (fun g =>
              bufferFieldBytes g ((data.lookup g.name).getD (MavValue.n 0)))).flatten)
            ++ leBytes (calculateChecksum (([m.payloadLength % 256,
                (if st.sequence = 255 then 0 else st.sequence + 1) % 256,
                st.sysid % 256, st.compid % 256, m.id % 256]
              ++ ((m.field.map (fun g =>
                bufferFieldBytes g ((data.lookup g.name).getD (MavValue.n 0)))).flatten))
              ++ [seedOf st.catalog m.id])) 2)))) := by
    unfold createMessage
    simp only [hid]
    rw [if_pos hdata2]
    rfl
  rw [heq]
  rw [hb1, hb5]
  refine ⟨_, rfl, ?_, ?_⟩
  · rw [decodeMessage_of_byID st.catalog _ m hidcat]
    rw [mkMessage_payload m.payloadLength
      ((if st.sequence = 255 then 0 else st.sequence + 1) % 256)
      (st.sysid % 256) (st.compid % 256) m.id
      ((m.field.map (fun g =>
        bufferFieldBytes g ((data.lookup g.name).getD (MavValue.n 0)))).flatten)
      _ hPlen]
    have hrt := decodeFields_roundtrip data m.field [] [] hwf hvdE
    simpa using hrt
  · rw [mkMessage_buffer_full m.payloadLength
      ((if st.sequence = 255 then 0 else st.sequence + 1) % 256)
      (st.sysid % 256) (st.compid % 256) m.id
      ((m.field.map (fun g =>
        bufferFieldBytes g ((data.lookup g.name).getD (MavValue.n 0)))).flatten)
      _ hPlen (leBytes_length _ 2)]
    have hP := hPlen
    have hdecP : decodeFields ((m.field.map (fun g =>
        bufferFieldBytes g ((data.lookup g.name).getD (MavValue.n 0)))).flatten) 0 m.field
        = .ok (m.field.map (fun g =>
            (g.name, normalizeValue g ((data.lookup g.name).getD (MavValue.n 0))))) := by
      have hrt := decodeFields_roundtrip data m.field [] [] hwf hvdE
      simpa using hrt
    have hm := frame_parse_delivers st2 m m.payloadLength
      ((if st.sequence = 255 then 0 else st.sequence + 1) % 256)
      (st.sysid % 256) (st.compid % 256)
      ((m.field.map (fun g =>
        bufferFieldBytes g ((data.lookup g.name).getD (MavValue.n 0)))).flatten)
      (m.field.map (fun g =>
        (g.name, normalizeValue g ((data.lookup g.name).getD (MavValue.n 0)))))
      (by rw [hst2cat]; exact hidcat) hPlen (by omega) hst2idx hst2buf hsys0 hcomp0 hdecP
    rw [hst2cat] at hm
    exact hm


/-- Witness for C1: the spec's `ATTITUDE` scenario — built from a fresh
codec with origin ids 1,1 and fed to a fresh promiscuous codec — decodes
back to the supplied field map, both directly and through the parser. -/
theorem C1_roundtrip_witness :
    ∃ msg, (createMessage (mavlinkInit 1 1 specCatalog) (.byStr "ATTITUDE") attitudeData).2
        = some msg ∧
      decodeMessage (mavlinkInit 1 1 specCatalog).catalog msg
        = .ok ((compileMessage rawATTITUDE).field.map (fun g =>
            (g.name, normalizeValue g ((attitudeData.lookup g.name).getD (MavValue.n 0))))) ∧
      ∃ im, Event.message (compileMessage rawATTITUDE).name im
          ((compileMessage rawATTITUDE).field.map (fun g =>
            (g.name, normalizeValue g ((attitudeData.lookup g.name).getD (MavValue.n 0)))))
        ∈ (parseBytes (mavlinkInit 0 0 specCatalog) msg.buffer).2.1 :=
  C1_roundtrip (mavlinkInit 1 1 specCatalog) (mavlinkInit 0 0 specCatalog)
    (.byStr "ATTITUDE") attitudeData (compileMessage rawATTITUDE)
    (by decide) (by decide) (by decide) (by decide) (by decide) (by decide)
    (by decide) rfl rfl rfl rfl rfl

/-- C1 counterexample: under the claim's own validity notion (a char
string no longer than the declared array length), the empty `param_id`
string of `PARAM_VALUE` fails the round trip: the built frame decodes
`param_id` to the one-byte NUL string, while the claimed trailing-zero
trim of the supplied empty string is the empty string. -/
theorem C1_counterexample :
    ((compileMessage rawPARAM_VALUE).field.find? (fun f => f.name = "param_id")).map
        (fun f => normalizeValue f (MavValue.s [])) = some (MavValue.s [])
    ∧ (match (createMessage (mavlinkInit 1 1 specCatalog) (.byStr "PARAM_VALUE")
          paramEmptyData).2 with
       | some msg => decodedLookup specCatalog (mkMessage msg.buffer) "param_id"
       | none => none) = some (MavValue.s [0])
    ∧ some (MavValue.s [0]) ≠ some (MavValue.s []) := by
  refine ⟨by decide, by decide, by decide⟩

end NodeMavlink
